import Mathlib

/-!
# Verification of the selective-sync folder-status model

Shallow embedding, in Lean 4, of the algorithmic core of the mytuxedo-client
excerpt: the tri-state checkbox tree of `FolderStatusModel`
(`folderstatusmodel.cpp`: `setData`, `slotUpdateDirectories`,
`createBlackList`, `slotApplySelectiveSync`, `fetchMore`/`canFetchMore`) and
`Account::concatUrlPath` (`account.cpp`).

Modelling conventions:
* `Qt::CheckState` becomes the inductive `CheckState`.
* `SubFolderInfo` becomes a tree inductive. Because Lean 4.14 does not accept
  structural recursion through `List SubFolderInfo`, the child sequence is the
  isomorphic inductive `SubList` (a specialised list), so every function on
  trees is structurally recursive and kernel-reducible.
* A node is addressed by the list of child indices from the node up to its
  root, deepest index first (`rpath`).  This is the reverse of the root-first
  `QModelIndex` chain; the reversed order makes `index.parent()` the tail of
  the address, which is what `setData`'s upward recursion peels off.
  The `_pathIdx` field stored inside a node keeps the source's root-first
  order.
* `setData` with `Qt::CheckStateRole` is `setDataR`.  It returns the updated
  tree together with the list of node addresses for which
  `dataChanged(index, index, ...)` was emitted, in emission order.
  The re-entrant parent re-evaluation performed by the recursive
  `setData(child, s)` calls of the down-cascade (lines 176-180 and 191-195 of
  the source) is vacuous there — the guard compares the parent's state, just
  assigned to `s`, with `s` — so the down-cascade is embedded as the
  structural `cascadeN`/`cascadeSubsN` pair.
-/

set_option autoImplicit false

namespace OCC

/-- `Qt::CheckState`. -/
inductive CheckState : Type where
  | Unchecked
  | PartiallyChecked
  | Checked
deriving DecidableEq, Repr

mutual
/-- `FolderStatusModel::SubFolderInfo` (folderstatusmodel.h is not part of the
excerpt; the fields and their meaning follow the uses in
folderstatusmodel.cpp and §3 of the spec: `_path`, `_name`, `_pathIdx`,
`_checked`, `_fetched`, `_fetching`, `_size`, `_subs`). -/
inductive SubFolderInfo : Type where
  | mk (path name : String) (pathIdx : List Nat) (checked : CheckState)
       (fetched fetching : Bool) (size : Nat) (subs : SubList) : SubFolderInfo
deriving DecidableEq, Repr

/-- The child sequence `QVector<SubFolderInfo>`, as a specialised list so that
recursion over the tree is structural. -/
inductive SubList : Type where
  | nil : SubList
  | cons (head : SubFolderInfo) (tail : SubList) : SubList
deriving DecidableEq, Repr
end

namespace SubFolderInfo

def path : SubFolderInfo → String
  | .mk p _ _ _ _ _ _ _ => p

def name : SubFolderInfo → String
  | .mk _ n _ _ _ _ _ _ => n

def pathIdx : SubFolderInfo → List Nat
  | .mk _ _ pi _ _ _ _ _ => pi

def checked : SubFolderInfo → CheckState
  | .mk _ _ _ c _ _ _ _ => c

def fetched : SubFolderInfo → Bool
  | .mk _ _ _ _ f _ _ _ => f

def fetching : SubFolderInfo → Bool
  | .mk _ _ _ _ _ g _ _ => g

def size : SubFolderInfo → Nat
  | .mk _ _ _ _ _ _ sz _ => sz

def subs : SubFolderInfo → SubList
  | .mk _ _ _ _ _ _ _ s => s

/-- `info->_checked = checked` (source line 155). -/
def setChecked : SubFolderInfo → CheckState → SubFolderInfo
  | .mk p n pi _ f g sz s, c => .mk p n pi c f g sz s

def setSubs : SubFolderInfo → SubList → SubFolderInfo
  | .mk p n pi c f g sz _, s => .mk p n pi c f g sz s

def setFetched : SubFolderInfo → Bool → SubFolderInfo
  | .mk p n pi c _ g sz s, f => .mk p n pi c f g sz s

def setFetching : SubFolderInfo → Bool → SubFolderInfo
  | .mk p n pi c f _ sz s, g => .mk p n pi c f g sz s

end SubFolderInfo

namespace SubList

def get? : SubList → Nat → Option SubFolderInfo
  | .nil, _ => none
  | .cons c _, 0 => some c
  | .cons _ rest, n + 1 => rest.get? n

def set : SubList → Nat → SubFolderInfo → SubList
  | .nil, _, _ => .nil
  | .cons _ rest, 0, x => .cons x rest
  | .cons c rest, n + 1, x => .cons c (rest.set n x)

def allB (p : SubFolderInfo → Bool) : SubList → Bool
  | .nil => true
  | .cons c rest => p c && allB p rest

def length : SubList → Nat
  | .nil => 0
  | .cons _ rest => rest.length + 1

def toList : SubList → List SubFolderInfo
  | .nil => []
  | .cons c rest => c :: rest.toList

def append : SubList → SubList → SubList
  | .nil, l => l
  | .cons c rest, l => .cons c (rest.append l)

end SubList

/-! ## Tree addressing

`getNodeR root rp` resolves the reversed address `rp` (deepest child index
first) to a node; `updateNodeR root rp f` rewrites the node at `rp` with `f`
(identity when the address does not resolve, matching the null checks of
`infoForIndex`). -/

/-- Resolve a reversed address. -/
def getNodeR : SubFolderInfo → List Nat → Option SubFolderInfo
  | root, [] => some root
  | root, k :: rp =>
    match getNodeR root rp with
    | none => none
    | some t => t.subs.get? k

/-- Rewrite child `k` of `t` with `f`; identity when `k` is out of range. -/
def modifyChild (k : Nat) (f : SubFolderInfo → SubFolderInfo) (t : SubFolderInfo) : SubFolderInfo :=
  match t.subs.get? k with
  | none => t
  | some c => t.setSubs (t.subs.set k (f c))

/-- Rewrite the node at reversed address `rp` with `f`. -/
def updateNodeR : SubFolderInfo → List Nat → (SubFolderInfo → SubFolderInfo) → SubFolderInfo
  | root, [], f => f root
  | root, k :: rp, f => updateNodeR root rp (modifyChild k f)

/-! ## The check-state cascade (setData lines 176-180 / 191-195)

`setData(node, s)` with `s` Checked (resp. Unchecked) calls
`setData(child(i), s)` for every child whose `_checked != s`.  Each such call
assigns the child's state, finds its parent state already equal to `s` (so the
parent re-evaluation block does nothing), recurses into the grandchildren the
same way and finally emits `dataChanged` for the child.  Children already in
state `s` are not visited at all.  The second component collects the emitted
addresses (reversed, child address `i :: base`), in emission order. -/

mutual
/-- Effect of the recursive `setData(child, s)` call on the subtree of one
child at reversed address `base`. -/
def cascadeN (s : CheckState) (base : List Nat) : SubFolderInfo → SubFolderInfo × List (List Nat)
  | .mk p n pi _ f g sz subs =>
    let r := cascadeSubsN s base 0 subs
    (.mk p n pi s f g sz r.1, r.2 ++ [base])

/-- The `for (int i = 0; ...)` loop over `info->_subs`: children with
`_checked != s` get the recursive `setData` treatment, the others are left
untouched. -/
def cascadeSubsN (s : CheckState) (base : List Nat) (i : Nat) : SubList → SubList × List (List Nat)
  | .nil => (.nil, [])
  | .cons c rest =>
    let tr := cascadeSubsN s base (i + 1) rest
    if c.checked = s then (.cons c tr.1, tr.2)
    else
      let r := cascadeN s (i :: base) c
      (.cons r.1 tr.1, r.2 ++ tr.2)
end

/-- Apply the child cascade to the subs of the node at `rpath`. -/
def cascadeChildren (s : CheckState) (root : SubFolderInfo) (rpath : List Nat) :
    SubFolderInfo × List (List Nat) :=
  match getNodeR root rpath with
  | none => (root, [])
  | some info =>
    let r := cascadeSubsN s rpath 0 info.subs
    (updateNodeR root rpath (fun t => t.setSubs r.1), r.2)

/-- `FolderStatusModel::setData` with `role == Qt::CheckStateRole`
(source lines 148-213), fuel-indexed so that the upward recursion (which
peels one index off the reversed address per step) is structurally
recursive and kernel-reducible.  `setDataR` below instantiates the fuel with
`rpath.length + 1`, which always suffices. -/
def setDataF : Nat → SubFolderInfo → List Nat → CheckState → SubFolderInfo × List (List Nat)
  | 0, root, rpath, _ => (root, [rpath])
  | fuel + 1, root, rpath, s =>
    match getNodeR root rpath with
    | none => (root, [rpath])
    | some info =>
      if info.checked = s then (root, [rpath])
      else
        let r1 := updateNodeR root rpath (fun t => t.setChecked s)
        match s with
        | CheckState.Checked =>
          -- lines 156-181: parent re-evaluation first, then the child cascade
          let pr : SubFolderInfo × List (List Nat) :=
            match rpath with
            | [] => (r1, [])
            | _ :: rparent =>
              match getNodeR r1 rparent with
              | none => (r1, [])
              | some parent =>
                if parent.checked = CheckState.Checked then (r1, [])
                else if parent.subs.allB (fun sub => sub.checked = CheckState.Checked) then
                  setDataF fuel r1 rparent CheckState.Checked
                else if parent.checked = CheckState.Unchecked then
                  setDataF fuel r1 rparent CheckState.PartiallyChecked
                else (r1, [])
          let cr := cascadeChildren CheckState.Checked pr.1 rpath
          (cr.1, pr.2 ++ cr.2 ++ [rpath])
        | CheckState.Unchecked =>
          -- lines 183-196
          let pr : SubFolderInfo × List (List Nat) :=
            match rpath with
            | [] => (r1, [])
            | _ :: rparent =>
              match getNodeR r1 rparent with
              | none => (r1, [])
              | some parent =>
                if parent.checked = CheckState.Checked then
                  setDataF fuel r1 rparent CheckState.PartiallyChecked
                else (r1, [])
          let cr := cascadeChildren CheckState.Unchecked pr.1 rpath
          (cr.1, pr.2 ++ cr.2 ++ [rpath])
        | CheckState.PartiallyChecked =>
          -- lines 198-204: no child cascade
          let pr : SubFolderInfo × List (List Nat) :=
            match rpath with
            | [] => (r1, [])
            | _ :: rparent =>
              match getNodeR r1 rparent with
              | none => (r1, [])
              | some parent =>
                if parent.checked = CheckState.PartiallyChecked then (r1, [])
                else setDataF fuel r1 rparent CheckState.PartiallyChecked
          (pr.1, pr.2 ++ [rpath])

/-- `setData` with `role == Qt::CheckStateRole`: new tree and emitted
`dataChanged` addresses, in emission order. -/
def setDataR (root : SubFolderInfo) (rpath : List Nat) (s : CheckState) :
    SubFolderInfo × List (List Nat) :=
  setDataF (rpath.length + 1) root rpath s

/-- Composition of `modifyChild` steps accumulated by `updateNodeR` when the
address is split as `ext ++ rq`. -/
def nestChild : List Nat → (SubFolderInfo → SubFolderInfo) → SubFolderInfo → SubFolderInfo
  | [], f => f
  | k :: ext, f => nestChild ext (modifyChild k f)

mutual
/-- Everything in the subtree of `t` has state `s`. -/
def allStateB (s : CheckState) : SubFolderInfo → Bool
  | .mk _ _ _ c _ _ _ subs => (c = s) && allStateSubs s subs

def allStateSubs (s : CheckState) : SubList → Bool
  | .nil => true
  | .cons c rest => allStateB s c && allStateSubs s rest
end

mutual
/-- Hereditary closure: every node of the subtree that already has state `s`
has all of its materialized descendants in state `s` as well. -/
def heredB (s : CheckState) : SubFolderInfo → Bool
  | .mk _ _ _ c _ _ _ subs => if c = s then allStateSubs s subs else heredSubs s subs

def heredSubs (s : CheckState) : SubList → Bool
  | .nil => true
  | .cons c rest => heredB s c && heredSubs s rest
end

/-! ## Blacklist projection (`FolderStatusModel::createBlackList`, lines 433-461)

Paths are `String`s.  `QString::startsWith` is modelled on the underlying
character list (`strStartsWith s pre` ⟺ `pre` is a prefix of `s`), because
Lean's own `String.startsWith` is not kernel-reducible. -/

/-- `QString::startsWith`. -/
def strStartsWith (s pre : String) : Bool :=
  pre.data.isPrefixOf s.data

mutual
/-- `FolderStatusModel::createBlackList` (lines 433-461).  The C++ takes a
nullable pointer and returns an empty list for null; the embedding models the
non-null case. -/
def createBlackList (root : SubFolderInfo) (oldBlackList : List String) : List String :=
  match root with
  | .mk p _ _ c f _ _ subs =>
    match c with
    | CheckState.Unchecked => [p]
    | CheckState.Checked => []
    | CheckState.PartiallyChecked =>
      if f then createBlackListSubs subs oldBlackList
      else
        -- we did not load from the server so we re-use the old black list
        oldBlackList.filter (fun it => strStartsWith it p)

/-- The `for (int i = 0; ...)` recursion of lines 449-451. -/
def createBlackListSubs : SubList → List String → List String
  | .nil, _ => []
  | .cons c rest, old => createBlackList c old ++ createBlackListSubs rest old
end

/-! ## Fetch-completion child construction
(`FolderStatusModel::slotUpdateDirectories`, lines 366-421) -/

/-- Modelled from the spec (§4.2): the check state a fresh `SubFolderInfo`
carries by default — the defaults are declared in folderstatusmodel.h, which
is not part of the excerpt; per the spec a child "starts at the parent's
inherited default (Checked ...)". -/
def defaultCheckState : CheckState := CheckState.Checked

/-- The blacklist consultation loop of lines 408-415: an exact match or the
universal marker breaks with Unchecked; an entry that the child's path is a
prefix of (`str.startsWith(path)`) sets PartiallyChecked and keeps looping. -/
def blackListStateLoop : List String → String → CheckState → CheckState
  | [], _, cur => cur
  | str :: rest, path, cur =>
    if str = path ∨ str = "/" then CheckState.Unchecked
    else if strStartsWith str path then blackListStateLoop rest path CheckState.PartiallyChecked
    else blackListStateLoop rest path cur

/-- Initial `_checked` of a child created by `slotUpdateDirectories`
(lines 404-416): an Unchecked parent forces Unchecked; otherwise the owning
folder's blacklist is consulted, starting from the constructed default. -/
def initialCheckState (parentChecked : CheckState) (blackList : List String)
    (path : String) : CheckState :=
  if parentChecked = CheckState.Unchecked then CheckState.Unchecked
  else blackListStateLoop blackList path defaultCheckState

/-- The claim's reading of the same consultation, stated verbatim for
comparison: "if any blacklist entry is a prefix of the child's path, the
child starts PartiallyChecked". -/
def claimInitialCheckState (parentChecked : CheckState) (blackList : List String)
    (path : String) : CheckState :=
  if parentChecked = CheckState.Unchecked then CheckState.Unchecked
  else if blackList.any (fun str => str = path ∨ str = "/") then CheckState.Unchecked
  else if blackList.any (fun str => strStartsWith path str) then CheckState.PartiallyChecked
  else CheckState.Checked

/-- `QString::remove(const QString &)` removes every occurrence of the
pattern: scan left to right, on a match drop it and rescan from the same
position.  Fuel-indexed (the string shrinks by at least one character per
removal); `qRemoveAll` supplies sufficient fuel. -/
def removeAllFuel : Nat → List Char → List Char → List Char
  | 0, s, _ => s
  | fuel + 1, s, pat =>
    match s with
    | [] => []
    | c :: rest =>
      if pat ≠ [] ∧ pat.isPrefixOf (c :: rest) then
        removeAllFuel fuel ((c :: rest).drop pat.length) pat
      else c :: removeAllFuel fuel rest pat

/-- `path.remove(pathToRemove)` of line 397. -/
def qRemoveAll (s pat : String) : String :=
  String.mk (removeAllFuel s.data.length s.data pat.data)

/-- `path.split('/', QString::SkipEmptyParts)` on the underlying characters:
maximal runs of non-`'/'` characters, in order. -/
def segsAux : List Char → List Char → List (List Char)
  | [], cur => if cur.isEmpty then [] else [cur.reverse]
  | c :: rest, cur =>
    if c = '/' then (if cur.isEmpty then segsAux rest [] else cur.reverse :: segsAux rest [])
    else segsAux rest (c :: cur)

/-- `path.split('/', QString::SkipEmptyParts).last()` of line 399.
`QList::last()` on an empty list is undefined behaviour in Qt; the model
returns `""` there. -/
def lastSegment (path : String) : String :=
  match (segsAux path.data []).getLast? with
  | none => ""
  | some seg => String.mk seg

/-- The `foreach (QString path, list)` loop of lines 389-418: one child per
entry whose path is non-empty after `path.remove(pathToRemove)`; the index
`i` is pushed onto `_pathIdx` and incremented for every entry, also the
skipped ones (`newInfo._pathIdx << i++` on line 394 runs before the
`path.isEmpty()` check on line 401); `_size` is looked up with the original
entry (line 395 precedes the removal on line 397). -/
def processEntries (parentPathIdx : List Nat) (parentChecked : CheckState)
    (blackList : List String) (pathToRemove : String) (sizes : String → Nat) :
    Nat → List String → SubList
  | _, [] => SubList.nil
  | i, p :: rest =>
    let path := qRemoveAll p pathToRemove
    if path = "" then
      processEntries parentPathIdx parentChecked blackList pathToRemove sizes (i + 1) rest
    else
      SubList.cons
        (SubFolderInfo.mk path (lastSegment path) (parentPathIdx ++ [i])
          (initialCheckState parentChecked blackList path) false false (sizes p) SubList.nil)
        (processEntries parentPathIdx parentChecked blackList pathToRemove sizes (i + 1) rest)

/-- Lines 382-384: the remote root string, with a trailing `'/'` ensured. -/
def pathToRemoveOf (remoteUrlPath : String) : String :=
  if remoteUrlPath.data.getLast? = some '/' then remoteUrlPath else remoteUrlPath ++ "/"

/-- `FolderStatusModel::slotUpdateDirectories` (lines 366-421) on the parent
node: drop the first entry (the directory's own listing), ensure the
remote-root string ends in `'/'`, mark the node fetched, and append the
surviving children in listing order. -/
def slotUpdateDirectories (parentInfo : SubFolderInfo) (blackList : List String)
    (remoteUrlPath : String) (sizes : String → Nat) (list_ : List String) : SubFolderInfo :=
  ((parentInfo.setFetched true).setFetching false).setSubs
    (parentInfo.subs.append
      (processEntries parentInfo.pathIdx parentInfo.checked blackList
        (pathToRemoveOf remoteUrlPath) sizes 0 (list_.drop 1)))

/-- Models the root-folder materialization in `infoForIndex` (lines 258-267):
a fresh root `SubFolderInfo` gets `_pathIdx = [row]`, `_name` the folder
alias, `_path = "/"`.  Modelled from the spec: the remaining fields take the
defaults declared in folderstatusmodel.h (not in the excerpt) — check state
Checked, `fetched`/`fetching` false. -/
def mkRootInfo (row : Nat) (aliasName : String) : SubFolderInfo :=
  SubFolderInfo.mk "/" aliasName [row] defaultCheckState false false 0 SubList.nil

/-! ## Lazy fetch protocol (`canFetchMore`/`fetchMore`, lines 342-364) -/

/-- `FolderStatusModel::canFetchMore` (lines 342-348), for a resolved node. -/
def canFetchMore (info : SubFolderInfo) : Bool :=
  !info.fetched && !info.fetching

/-- `FolderStatusModel::fetchMore` (lines 351-364): guard, then
`info->_fetching = true` and the `LsColJob` is started (the network side is
outside the model). -/
def fetchMore (info : SubFolderInfo) : SubFolderInfo :=
  if info.fetched || info.fetching then info else info.setFetching true

/-- What happens to the model state when the listing job fails: `fetchMore`
connects only `directoryListingSubfolders` (lines 360-361); the error handler
`slotLscolFinishedWithError` is commented out (lines 423-431) and no error
signal is connected, so a failed request triggers no slot and the state is
unchanged — in particular `_fetching` is never reset. -/
def onFetchFailed (info : SubFolderInfo) : SubFolderInfo := info

/-! ## The model wrapper: `_dirty`, `dirtyChanged`, `dataChanged`
(setData lines 207-210) -/

/-- The mutable state of `FolderStatusModel` relevant to selective sync:
the materialized root infos (`_folders`) and the `_dirty` flag. -/
structure FolderStatusModelState where
  folders : List SubFolderInfo
  dirty : Bool
deriving DecidableEq, Repr

/-- `setData` with `Qt::CheckStateRole` at root `rootIdx`, node `rpath`:
even when `infoForIndex` returns null or nothing changes, lines 207-210 still
set `_dirty`, emit `dirtyChanged` and emit `dataChanged` for the toggled
index, and return true. -/
def modelSetData (st : FolderStatusModelState) (rootIdx : Nat) (rpath : List Nat)
    (s : CheckState) : FolderStatusModelState × List (List Nat) :=
  match st.folders.get? rootIdx with
  | none => ({ st with dirty := true }, [rpath])
  | some root =>
    let r := setDataR root rpath s
    (⟨st.folders.set rootIdx r.1, true⟩, r.2)

/-! ## Applying the selective-sync choices
(`FolderStatusModel::slotApplySelectiveSync`, lines 463-496) -/

/-- The external `Folder` object, as far as the apply loop touches it. -/
structure FolderStub where
  blackList : List String
  busy : Bool
deriving DecidableEq, Repr

/-- External effects of one apply run: the folders (with overwritten
blacklists), the paths marked `avoidReadFromDbOnNextSync`, the indices of
folders whose running sync was terminated, and the indices scheduled for
re-sync. -/
structure ApplyOutcome where
  folders : List FolderStub
  untrusted : List String
  terminated : List Nat
  scheduled : List Nat
deriving DecidableEq, Repr

/-- `(oldBlackListSet - blackListSet) + (blackListSet - oldBlackListSet)`
(lines 479-481), as a list; only membership and emptiness matter (the C++
value is a `QSet`). -/
def symmDiffL (old new : List String) : List String :=
  old.filter (fun x => !(new.contains x)) ++ new.filter (fun x => !(old.contains x))

/-- The `for (int i = 0; ...)` loop of lines 469-493: stop at the end of
`_folders` (`i >= _folders.count()` breaks), skip roots never fetched,
otherwise project the blacklist, overwrite it, and on a non-empty symmetric
difference terminate a busy sync, mark every changed path in the journal and
schedule a re-sync. -/
def applyLoop : Nat → List FolderStub → List SubFolderInfo → ApplyOutcome
  | _, [], _ => ⟨[], [], [], []⟩
  | _, f :: fs, [] => ⟨f :: fs, [], [], []⟩
  | i, f :: fs, m :: ms =>
    let rest := applyLoop (i + 1) fs ms
    if m.fetched = false then
      ⟨f :: rest.folders, rest.untrusted, rest.terminated, rest.scheduled⟩
    else
      let oldBL := f.blackList
      let newBL := createBlackList m oldBL
      let changes := symmDiffL oldBL newBL
      if changes = [] then
        ⟨{ f with blackList := newBL } :: rest.folders, rest.untrusted,
          rest.terminated, rest.scheduled⟩
      else
        ⟨{ f with blackList := newBL } :: rest.folders, changes ++ rest.untrusted,
          (if f.busy then i :: rest.terminated else rest.terminated), i :: rest.scheduled⟩

/-- `FolderStatusModel::slotApplySelectiveSync` (lines 463-496): a no-op
unless `_dirty`; otherwise run the loop and then `resetFolders()` (which
clears `_folders` and resets `_dirty` through `setAccount`).  Returns the new
`_dirty` flag, the new `_folders` and the external outcome. -/
def slotApplySelectiveSync (dirty : Bool) (mfolders : List SubFolderInfo)
    (folders : List FolderStub) : Bool × List SubFolderInfo × ApplyOutcome :=
  if dirty = false then (dirty, mfolders, ⟨folders, [], [], []⟩)
  else (false, [], applyLoop 0 folders mfolders)

/-! ## `Account::concatUrlPath` (account.cpp lines 284-305)

URL paths are modelled as character lists (`QString` contents); scheme, host
and port are carried unchanged by `QUrl` copy + `setPath`. -/

/-- The parts of `QUrl` that `concatUrlPath` interacts with. -/
structure QUrlM where
  scheme : String
  host : String
  port : Int
  path : List Char
  query : List (String × String)
deriving DecidableEq, Repr

/-- The path computation of lines 287-297: with a non-empty `concatPath`,
chop one trailing `'/'` when both boundary characters are slashes, insert one
when neither is, then append. -/
def concatPaths (path concatPath : List Char) : List Char :=
  if concatPath.isEmpty then path
  else if path.getLast? = some '/' ∧ concatPath.head? = some '/' then
    path.dropLast ++ concatPath
  else if ¬ path.getLast? = some '/' ∧ ¬ concatPath.head? = some '/' then
    path ++ '/' :: concatPath
  else path ++ concatPath

/-- `Account::concatUrlPath` (lines 284-305): copy the URL, set the joined
path, and set the query items when any are passed. -/
def Account.concatUrlPath (url : QUrlM) (concatPath : List Char)
    (queryItems : List (String × String)) : QUrlM :=
  { url with path := concatPaths url.path concatPath,
             query := if 0 < queryItems.length then queryItems else url.query }

/-- The base path with one trailing slash chopped, if present (how the claim
words the junction's left side). -/
def chopSlashEnd (p : List Char) : List Char :=
  if p.getLast? = some '/' then p.dropLast else p

/-- The relative path with one leading slash chopped, if present. -/
def chopSlashStart (p : List Char) : List Char :=
  if p.head? = some '/' then p.tail else p

/-! ## Basic lemmas about the tree operations -/

/-- Single-motive structural induction for `SubList` (the mutual recursor has
two motives, which the `induction` tactic does not accept directly). -/
theorem SubList.inductionOn {motive : SubList → Prop} (l : SubList)
    (nil : motive SubList.nil)
    (cons : ∀ hd tl, motive tl → motive (SubList.cons hd tl)) : motive l :=
  match l with
  | .nil => nil
  | .cons hd tl => cons hd tl (SubList.inductionOn tl nil cons)

theorem SubList.get?_set_eq {l : SubList} {k : Nat} {c : SubFolderInfo} (x : SubFolderInfo)
    (h : l.get? k = some c) : (l.set k x).get? k = some x := by
  induction l using SubList.inductionOn generalizing k with
  | nil => simp [SubList.get?] at h
  | cons hd tl ih =>
    cases k with
    | zero => simp [SubList.get?, SubList.set]
    | succ n => simpa [SubList.get?, SubList.set] using ih (k := n) (by simpa [SubList.get?] using h)

theorem SubList.get?_set_ne {l : SubList} {k j : Nat} (x : SubFolderInfo) (h : j ≠ k) :
    (l.set k x).get? j = l.get? j := by
  induction l using SubList.inductionOn generalizing k j with
  | nil => simp [SubList.set]
  | cons hd tl ih =>
    cases k with
    | zero => cases j with
      | zero => exact absurd rfl h
      | succ m => simp [SubList.get?, SubList.set]
    | succ n => cases j with
      | zero => simp [SubList.get?, SubList.set]
      | succ m => simpa [SubList.get?, SubList.set] using ih (fun hh => h (by simp [hh]))

theorem SubList.set_get_self {l : SubList} {k : Nat} {c : SubFolderInfo}
    (h : l.get? k = some c) : l.set k c = l := by
  induction l using SubList.inductionOn generalizing k with
  | nil => rfl
  | cons hd tl ih =>
    cases k with
    | zero =>
      simp [SubList.get?] at h
      simp [SubList.set, h]
    | succ n =>
      simp [SubList.get?] at h
      simp [SubList.set, ih h]

theorem SubList.allB_iff {p : SubFolderInfo → Bool} {l : SubList} :
    l.allB p = true ↔ ∀ k c, l.get? k = some c → p c = true := by
  induction l using SubList.inductionOn with
  | nil =>
    simp [SubList.allB]
    intro k c h
    simp [SubList.get?] at h
  | cons hd tl ih =>
    simp [SubList.allB, ih]
    constructor
    · rintro ⟨h1, h2⟩ k c hk
      cases k with
      | zero => simp [SubList.get?] at hk; simpa [← hk] using h1
      | succ n => exact h2 n c (by simpa [SubList.get?] using hk)
    · intro h
      exact ⟨h 0 hd rfl, fun k c hk => h (k + 1) c (by simpa [SubList.get?] using hk)⟩

theorem SubFolderInfo.setChecked_checked (t : SubFolderInfo) (s : CheckState) :
    (t.setChecked s).checked = s := by cases t; rfl

theorem SubFolderInfo.setChecked_subs (t : SubFolderInfo) (s : CheckState) :
    (t.setChecked s).subs = t.subs := by cases t; rfl

theorem SubFolderInfo.setChecked_pathIdx (t : SubFolderInfo) (s : CheckState) :
    (t.setChecked s).pathIdx = t.pathIdx := by cases t; rfl

theorem SubFolderInfo.setSubs_subs (t : SubFolderInfo) (l : SubList) :
    (t.setSubs l).subs = l := by cases t; rfl

theorem SubFolderInfo.setSubs_checked (t : SubFolderInfo) (l : SubList) :
    (t.setSubs l).checked = t.checked := by cases t; rfl

theorem SubFolderInfo.setSubs_pathIdx (t : SubFolderInfo) (l : SubList) :
    (t.setSubs l).pathIdx = t.pathIdx := by cases t; rfl

theorem SubFolderInfo.setSubs_self (t : SubFolderInfo) : t.setSubs t.subs = t := by cases t; rfl

theorem modifyChild_checked (k : Nat) (f : SubFolderInfo → SubFolderInfo) (t : SubFolderInfo) :
    (modifyChild k f t).checked = t.checked := by
  unfold modifyChild
  cases t.subs.get? k <;> simp [SubFolderInfo.setSubs_checked]

theorem modifyChild_pathIdx (k : Nat) (f : SubFolderInfo → SubFolderInfo) (t : SubFolderInfo) :
    (modifyChild k f t).pathIdx = t.pathIdx := by
  unfold modifyChild
  cases t.subs.get? k <;> simp [SubFolderInfo.setSubs_pathIdx]

theorem modifyChild_subs_get? (k : Nat) (f : SubFolderInfo → SubFolderInfo) (t : SubFolderInfo) :
    (modifyChild k f t).subs.get? k = (t.subs.get? k).map f := by
  unfold modifyChild
  cases h : t.subs.get? k with
  | none => simp [h]
  | some c => simp [SubFolderInfo.setSubs_subs, SubList.get?_set_eq (f c) h]

theorem getNodeR_updateNodeR (root : SubFolderInfo) (rp : List Nat)
    (f : SubFolderInfo → SubFolderInfo) :
    getNodeR (updateNodeR root rp f) rp = (getNodeR root rp).map f := by
  induction rp generalizing root f with
  | nil => rfl
  | cons k rp ih =>
    show getNodeR (updateNodeR root rp (modifyChild k f)) (k :: rp) = _
    simp only [getNodeR]
    rw [ih]
    cases h : getNodeR root rp with
    | none => rfl
    | some t => simp [modifyChild_subs_get?, Option.map]

theorem updateNodeR_append (root : SubFolderInfo) (ext rq : List Nat)
    (f : SubFolderInfo → SubFolderInfo) :
    updateNodeR root (ext ++ rq) f = updateNodeR root rq (nestChild ext f) := by
  induction ext generalizing f with
  | nil => rfl
  | cons k ext ih => simpa [updateNodeR, nestChild] using ih (modifyChild k f)

theorem nestChild_checked {ext : List Nat} (hne : ext ≠ [])
    (f : SubFolderInfo → SubFolderInfo) (t : SubFolderInfo) :
    (nestChild ext f t).checked = t.checked := by
  induction ext generalizing f with
  | nil => exact absurd rfl hne
  | cons k ext ih =>
    cases ext with
    | nil => exact modifyChild_checked k f t
    | cons k2 ext2 => exact ih (by simp) (modifyChild k f)

theorem nestChild_pathIdx {ext : List Nat} (hne : ext ≠ [])
    (f : SubFolderInfo → SubFolderInfo) (t : SubFolderInfo) :
    (nestChild ext f t).pathIdx = t.pathIdx := by
  induction ext generalizing f with
  | nil => exact absurd rfl hne
  | cons k ext ih =>
    cases ext with
    | nil => exact modifyChild_pathIdx k f t
    | cons k2 ext2 => exact ih (by simp) (modifyChild k f)

theorem getNodeR_updateNodeR_suffix (root : SubFolderInfo) (ext rq : List Nat)
    (f : SubFolderInfo → SubFolderInfo) :
    getNodeR (updateNodeR root (ext ++ rq) f) rq = (getNodeR root rq).map (nestChild ext f) := by
  rw [updateNodeR_append, getNodeR_updateNodeR]

theorem updateNodeR_eq_self {root : SubFolderInfo} {rp : List Nat}
    {f : SubFolderInfo → SubFolderInfo}
    (h : ∀ t, getNodeR root rp = some t → f t = t) : updateNodeR root rp f = root := by
  induction rp generalizing f with
  | nil => exact h root rfl
  | cons k rp ih =>
    show updateNodeR root rp (modifyChild k f) = root
    apply ih
    intro t ht
    unfold modifyChild
    cases hk : t.subs.get? k with
    | none => rfl
    | some c =>
      have hc : f c = c := by
        apply h
        simp [getNodeR, ht, hk]
      simp [hc, SubList.set_get_self hk, SubFolderInfo.setSubs_self]

/-! ## Cascade lemmas -/

/-- A child list whose members are all already in state `s` is left untouched
by the cascade loop, and nothing is emitted (no `setData(child, s)` call is
made for a child whose state already equals `s`). -/
theorem cascadeSubsN_of_allB {s : CheckState} {l : SubList}
    (h : l.allB (fun c => c.checked = s) = true) (base : List Nat) (i : Nat) :
    cascadeSubsN s base i l = (l, []) := by
  induction l using SubList.inductionOn generalizing i with
  | nil => rfl
  | cons hd tl ih =>
    simp only [SubList.allB, Bool.and_eq_true, decide_eq_true_eq] at h
    simp [cascadeSubsN, ih h.2, h.1]

theorem allStateB_checked {s : CheckState} {t : SubFolderInfo}
    (h : allStateB s t = true) : t.checked = s := by
  cases t with
  | mk p n pi c f g sz subs =>
    simp only [allStateB, Bool.and_eq_true, decide_eq_true_eq] at h
    exact h.1

theorem allStateB_subs {s : CheckState} {t : SubFolderInfo}
    (h : allStateB s t = true) : allStateSubs s t.subs = true := by
  cases t with
  | mk p n pi c f g sz subs =>
    simp only [allStateB, Bool.and_eq_true] at h
    exact h.2

theorem heredB_of_allStateB {s : CheckState} {t : SubFolderInfo}
    (h : allStateB s t = true) : heredB s t = true := by
  cases t with
  | mk p n pi c f g sz subs =>
    simp only [allStateB, Bool.and_eq_true, decide_eq_true_eq] at h
    simp [heredB, h.1, h.2]

theorem allStateSubs_allB {s : CheckState} {l : SubList}
    (h : allStateSubs s l = true) : l.allB (fun c => c.checked = s) = true := by
  induction l using SubList.inductionOn with
  | nil => rfl
  | cons hd tl ih =>
    simp only [allStateSubs, Bool.and_eq_true] at h
    simp only [SubList.allB, Bool.and_eq_true, decide_eq_true_eq]
    exact ⟨allStateB_checked h.1, by simpa using ih h.2⟩

mutual
/-- Under the hereditary-closure invariant, the cascade leaves the whole
subtree in state `s`. -/
theorem cascadeN_allStateB (s : CheckState) (base : List Nat) (t : SubFolderInfo)
    (h : heredB s t = true) : allStateB s (cascadeN s base t).1 = true := by
  cases t with
  | mk p n pi c f g sz subs =>
    simp only [cascadeN, allStateB, Bool.and_eq_true, decide_eq_true_eq,
      eq_self_iff_true, true_and]
    show allStateSubs s (cascadeSubsN s base 0 subs).1 = true
    by_cases hc : c = s
    · subst hc
      simp only [heredB, if_pos rfl] at h
      rw [cascadeSubsN_of_allB (allStateSubs_allB h)]
      exact h
    · simp only [heredB, if_neg hc] at h
      exact cascadeSubsN_allStateSubs s base 0 subs h

theorem cascadeSubsN_allStateSubs (s : CheckState) (base : List Nat) (i : Nat) (l : SubList)
    (h : heredSubs s l = true) : allStateSubs s (cascadeSubsN s base i l).1 = true := by
  cases l with
  | nil => rfl
  | cons hd tl =>
    simp only [heredSubs, Bool.and_eq_true] at h
    by_cases hc : hd.checked = s
    · simp only [cascadeSubsN, if_pos hc]
      simp only [allStateSubs, Bool.and_eq_true]
      refine ⟨?_, cascadeSubsN_allStateSubs s base (i + 1) tl h.2⟩
      cases hd with
      | mk p n pi c f g sz subs =>
        simp only [SubFolderInfo.checked] at hc
        subst hc
        simp only [heredB, if_pos rfl] at h
        simp only [allStateB, Bool.and_eq_true, decide_eq_true_eq,
          eq_self_iff_true, true_and]
        exact h.1
    · simp only [cascadeSubsN, if_neg hc]
      simp only [allStateSubs, Bool.and_eq_true]
      exact ⟨cascadeN_allStateB s (i :: base) hd h.1,
        cascadeSubsN_allStateSubs s base (i + 1) tl h.2⟩
end

/-! ## Frame and result lemmas for `setDataR`

The upward recursion of `setData` re-enters the tree at the parent address.
The frame lemma states that such a call never changes the child list of the
node it targets, provided the call is a `PartiallyChecked` one (which has no
child cascade) or a `Checked` one whose target already has all-Checked
children (then the cascade loop makes no `setData(child, ...)` call at all).
These are exactly the two shapes of the upward recursive calls. -/

/-- If the `.map subs` views of two trees agree at `rp`, the resolved nodes at
any extension `k :: rp` agree outright. -/
theorem getNodeR_child_congr {x y : SubFolderInfo} {rp : List Nat}
    (h : (getNodeR x rp).map SubFolderInfo.subs = (getNodeR y rp).map SubFolderInfo.subs)
    (k : Nat) : getNodeR x (k :: rp) = getNodeR y (k :: rp) := by
  simp only [getNodeR]
  cases hx : getNodeR x rp with
  | none =>
    cases hy : getNodeR y rp with
    | none => rfl
    | some t => rw [hx, hy] at h; simp at h
  | some t =>
    cases hy : getNodeR y rp with
    | none => rw [hx, hy] at h; simp at h
    | some u =>
      rw [hx, hy] at h
      simp only [Option.map, Option.some.injEq] at h
      show t.subs.get? k = u.subs.get? k
      rw [h]

theorem cascadeChildren_node {root : SubFolderInfo} {rp : List Nat} {t : SubFolderInfo}
    (s : CheckState) (h : getNodeR root rp = some t) :
    getNodeR (cascadeChildren s root rp).1 rp
      = some (t.setSubs (cascadeSubsN s rp 0 t.subs).1) := by
  unfold cascadeChildren
  simp only [h]
  rw [getNodeR_updateNodeR, h]
  rfl

/-- After the line-155 assignment, viewed at the assigned address. -/
theorem getNodeR_assign (root : SubFolderInfo) (rp : List Nat) (s : CheckState) :
    getNodeR (updateNodeR root rp (fun t => t.setChecked s)) rp
      = (getNodeR root rp).map (fun t => t.setChecked s) :=
  getNodeR_updateNodeR root rp _

/-- Frame lemma for the upward recursive `setData` calls: a
`PartiallyChecked` call never runs the child cascade, and a `Checked` call
whose target's children are already all Checked runs it vacuously; in both
cases the child list of the target node is untouched, hence the whole
subtree below the target is untouched. -/
theorem setDataF_subs_frame :
    ∀ (fuel : Nat) (root : SubFolderInfo) (rp : List Nat) (s : CheckState),
    (s = CheckState.PartiallyChecked ∨
      (s = CheckState.Checked ∧ ∀ t, getNodeR root rp = some t →
        t.subs.allB (fun c => c.checked = CheckState.Checked) = true)) →
    (getNodeR (setDataF fuel root rp s).1 rp).map SubFolderInfo.subs
      = (getNodeR root rp).map SubFolderInfo.subs := by
  intro fuel
  induction fuel with
  | zero => intro root rp s _; rfl
  | succ fuel ih =>
    intro root rp s hs
    cases hinfo : getNodeR root rp with
    | none => simp [setDataF, hinfo]
    | some info =>
      by_cases hc : info.checked = s
      · simp [setDataF, hinfo, hc]
      · rcases hs with hP | ⟨hC, hall⟩
        · -- s = PartiallyChecked: no child cascade at all
          subst hP
          simp only [setDataF, hinfo, if_neg hc]
          cases rp with
          | nil =>
            have hri : root = info := by
              have h2 := hinfo
              simp only [getNodeR, Option.some.injEq] at h2
              exact h2
            subst hri
            simp [getNodeR, updateNodeR, SubFolderInfo.setChecked_subs]
          | cons k rp =>
            have hr1 : getNodeR (updateNodeR root (k :: rp)
                (fun t => t.setChecked CheckState.PartiallyChecked)) (k :: rp)
                = some (info.setChecked CheckState.PartiallyChecked) := by
              rw [getNodeR_assign, hinfo]; rfl
            cases hpar : getNodeR (updateNodeR root (k :: rp)
                (fun t => t.setChecked CheckState.PartiallyChecked)) rp with
            | none =>
              simp only [hpar]
              rw [hr1]
              simp [SubFolderInfo.setChecked_subs]
            | some parent =>
              by_cases hpc : parent.checked = CheckState.PartiallyChecked
              · simp only [hpar, if_pos hpc]
                rw [hr1]
                simp [SubFolderInfo.setChecked_subs]
              · simp only [hpar, if_neg hpc]
                have hframe := ih (updateNodeR root (k :: rp)
                  (fun t => t.setChecked CheckState.PartiallyChecked)) rp
                  CheckState.PartiallyChecked (Or.inl rfl)
                rw [getNodeR_child_congr hframe k, hr1]
                simp [SubFolderInfo.setChecked_subs]
        · -- s = Checked with all children of the target already Checked
          subst hC
          simp only [setDataF, hinfo, if_neg hc]
          have hallinfo := hall info hinfo
          have key : ∀ (pr1 : SubFolderInfo),
              getNodeR pr1 rp = some (info.setChecked CheckState.Checked) →
              (getNodeR (cascadeChildren CheckState.Checked pr1 rp).1
                  rp).map SubFolderInfo.subs
                = Option.map SubFolderInfo.subs (some info) := by
            intro pr1 hpr1
            rw [cascadeChildren_node CheckState.Checked hpr1]
            simp only [SubFolderInfo.setChecked_subs]
            rw [cascadeSubsN_of_allB hallinfo]
            simp [SubFolderInfo.setSubs_subs, SubFolderInfo.setChecked_subs]
          cases rp with
          | nil =>
            have hri : root = info := by
              have h2 := hinfo
              simp only [getNodeR, Option.some.injEq] at h2
              exact h2
            subst hri
            exact key _ (by rw [getNodeR_assign]; simp [getNodeR])
          | cons k rp =>
            have hr1 : getNodeR (updateNodeR root (k :: rp)
                (fun t => t.setChecked CheckState.Checked)) (k :: rp)
                = some (info.setChecked CheckState.Checked) := by
              rw [getNodeR_assign, hinfo]; rfl
            cases hpar : getNodeR (updateNodeR root (k :: rp)
                (fun t => t.setChecked CheckState.Checked)) rp with
            | none => simp only [hpar]; exact key _ hr1
            | some parent =>
              by_cases hpc : parent.checked = CheckState.Checked
              · simp only [hpar, if_pos hpc]; exact key _ hr1
              · by_cases hsib : parent.subs.allB
                    (fun sub => sub.checked = CheckState.Checked) = true
                · simp only [hpar, if_neg hpc, if_pos hsib]
                  apply key
                  have hframe := ih (updateNodeR root (k :: rp)
                    (fun t => t.setChecked CheckState.Checked)) rp
                    CheckState.Checked (Or.inr ⟨rfl, fun t ht => by
                      rw [hpar] at ht
                      cases ht
                      exact hsib⟩)
                  rw [getNodeR_child_congr hframe k]
                  exact hr1
                · by_cases hpu : parent.checked = CheckState.Unchecked
                  · simp only [hpar, if_neg hpc, if_neg hsib, if_pos hpu]
                    apply key
                    have hframe := ih (updateNodeR root (k :: rp)
                      (fun t => t.setChecked CheckState.Checked)) rp
                      CheckState.PartiallyChecked (Or.inl rfl)
                    rw [getNodeR_child_congr hframe k]
                    exact hr1
                  · simp only [hpar, if_neg hpc, if_neg hsib, if_neg hpu]
                    exact key _ hr1

/-- The parent re-evaluation step keeps the toggled node intact: every
recursive call it makes is one of the two frame-lemma shapes. -/
theorem setDataF_pr_keeps_node (fuel : Nat) (root : SubFolderInfo) (k : Nat)
    (rparent : List Nat) (s s' : CheckState)
    (hcond : s' = CheckState.PartiallyChecked ∨
      (s' = CheckState.Checked ∧ ∀ t,
        getNodeR (updateNodeR root (k :: rparent) (fun t => t.setChecked s)) rparent = some t →
        t.subs.allB (fun c => c.checked = CheckState.Checked) = true))
    (info : SubFolderInfo) (hinfo : getNodeR root (k :: rparent) = some info) :
    getNodeR (setDataF fuel (updateNodeR root (k :: rparent)
        (fun t => t.setChecked s)) rparent s').1 (k :: rparent)
      = some (info.setChecked s) := by
  have hr1 : getNodeR (updateNodeR root (k :: rparent) (fun t => t.setChecked s)) (k :: rparent)
      = some (info.setChecked s) := by
    rw [getNodeR_assign, hinfo]; rfl
  have hframe := setDataF_subs_frame fuel
    (updateNodeR root (k :: rparent) (fun t => t.setChecked s)) rparent s' hcond
  rw [getNodeR_child_congr hframe k]
  exact hr1

/-- Result at the toggled node for a `PartiallyChecked` toggle: only the
line-155 assignment happens there (no child cascade). -/
theorem setDataF_node_partialState (fuel : Nat) (root : SubFolderInfo) (rp : List Nat)
    (info : SubFolderInfo) (hinfo : getNodeR root rp = some info)
    (hne : ¬ info.checked = CheckState.PartiallyChecked) :
    getNodeR (setDataF (fuel + 1) root rp CheckState.PartiallyChecked).1 rp
      = some (info.setChecked CheckState.PartiallyChecked) := by
  have hr1 : getNodeR (updateNodeR root rp
      (fun t => t.setChecked CheckState.PartiallyChecked)) rp
      = some (info.setChecked CheckState.PartiallyChecked) := by
    rw [getNodeR_assign, hinfo]; rfl
  simp only [setDataF, hinfo, if_neg hne]
  cases rp with
  | nil => exact hr1
  | cons k rparent =>
    cases hpar : getNodeR (updateNodeR root (k :: rparent)
        (fun t => t.setChecked CheckState.PartiallyChecked)) rparent with
    | none => simp only [hpar]; exact hr1
    | some parent =>
      by_cases hpc : parent.checked = CheckState.PartiallyChecked
      · simp only [hpar, if_pos hpc]; exact hr1
      · simp only [hpar, if_neg hpc]
        exact setDataF_pr_keeps_node fuel root k rparent CheckState.PartiallyChecked
          CheckState.PartiallyChecked (Or.inl rfl) info hinfo

/-- Result at the toggled node for a `Checked` or `Unchecked` toggle: the
line-155 assignment followed by the child cascade. -/
theorem setDataF_node_cascade (fuel : Nat) (root : SubFolderInfo) (rp : List Nat)
    (s : CheckState) (hs : s = CheckState.Checked ∨ s = CheckState.Unchecked)
    (info : SubFolderInfo) (hinfo : getNodeR root rp = some info)
    (hne : ¬ info.checked = s) :
    getNodeR (setDataF (fuel + 1) root rp s).1 rp
      = some ((info.setChecked s).setSubs (cascadeSubsN s rp 0 info.subs).1) := by
  have hr1 : getNodeR (updateNodeR root rp (fun t => t.setChecked s)) rp
      = some (info.setChecked s) := by
    rw [getNodeR_assign, hinfo]; rfl
  have hfin : ∀ (pr1 : SubFolderInfo),
      getNodeR pr1 rp = some (info.setChecked s) →
      getNodeR (cascadeChildren s pr1 rp).1 rp
        = some ((info.setChecked s).setSubs (cascadeSubsN s rp 0 info.subs).1) := by
    intro pr1 hpr1
    rw [cascadeChildren_node s hpr1]
    rw [SubFolderInfo.setChecked_subs]
  rcases hs with rfl | rfl
  · -- s = Checked
    simp only [setDataF, hinfo, if_neg hne]
    cases rp with
    | nil => exact hfin _ hr1
    | cons k rparent =>
      cases hpar : getNodeR (updateNodeR root (k :: rparent)
          (fun t => t.setChecked CheckState.Checked)) rparent with
      | none => simp only [hpar]; exact hfin _ hr1
      | some parent =>
        by_cases hpc : parent.checked = CheckState.Checked
        · simp only [hpar, if_pos hpc]; exact hfin _ hr1
        · by_cases hsib : parent.subs.allB
              (fun sub => sub.checked = CheckState.Checked) = true
          · simp only [hpar, if_neg hpc, if_pos hsib]
            exact hfin _ (setDataF_pr_keeps_node fuel root k rparent CheckState.Checked
              CheckState.Checked
              (Or.inr ⟨rfl, fun t ht => by rw [hpar] at ht; cases ht; exact hsib⟩) info hinfo)
          · by_cases hpu : parent.checked = CheckState.Unchecked
            · simp only [hpar, if_neg hpc, if_neg hsib, if_pos hpu]
              exact hfin _ (setDataF_pr_keeps_node fuel root k rparent CheckState.Checked
                CheckState.PartiallyChecked (Or.inl rfl) info hinfo)
            · simp only [hpar, if_neg hpc, if_neg hsib, if_neg hpu]
              exact hfin _ hr1
  · -- s = Unchecked
    simp only [setDataF, hinfo, if_neg hne]
    cases rp with
    | nil => exact hfin _ hr1
    | cons k rparent =>
      cases hpar : getNodeR (updateNodeR root (k :: rparent)
          (fun t => t.setChecked CheckState.Unchecked)) rparent with
      | none => simp only [hpar]; exact hfin _ hr1
      | some parent =>
        by_cases hpc : parent.checked = CheckState.Checked
        · simp only [hpar, if_pos hpc]
          exact hfin _ (setDataF_pr_keeps_node fuel root k rparent CheckState.Unchecked
            CheckState.PartiallyChecked (Or.inl rfl) info hinfo)
        · simp only [hpar, if_neg hpc]
          exact hfin _ hr1

/-- Upward propagation of `PartiallyChecked` (setData lines 198-204): the
toggled node and every ancestor reached through a chain of
non-`PartiallyChecked` states all end up `PartiallyChecked`.  Addresses of
ancestors are suffixes of the reversed address. -/
theorem setDataF_partial_chain :
    ∀ (fuel : Nat) (root : SubFolderInfo) (rp : List Nat), rp.length < fuel →
    ∀ (rq : List Nat), rq <:+ rp →
    (∀ rr, rr <:+ rp → rq <:+ rr →
      ∃ t, getNodeR root rr = some t ∧ ¬ t.checked = CheckState.PartiallyChecked) →
    (getNodeR (setDataF fuel root rp CheckState.PartiallyChecked).1 rq).map
        SubFolderInfo.checked
      = some CheckState.PartiallyChecked := by
  intro fuel
  induction fuel with
  | zero => intro root rp hlen; exact absurd hlen (Nat.not_lt_zero _)
  | succ fuel ih =>
    intro root rp hlen rq hsuf hyp
    obtain ⟨info, hinfo, hcne⟩ := hyp rp List.suffix_rfl hsuf
    simp only [setDataF, hinfo, if_neg hcne]
    cases rp with
    | nil =>
      have hq : rq = [] := List.suffix_nil.mp hsuf
      subst hq
      simp [getNodeR, updateNodeR, SubFolderInfo.setChecked_checked]
    | cons k rparent =>
      have hr1node : getNodeR (updateNodeR root (k :: rparent)
          (fun t => t.setChecked CheckState.PartiallyChecked)) (k :: rparent)
          = some (info.setChecked CheckState.PartiallyChecked) := by
        rw [getNodeR_assign, hinfo]; rfl
      have hr1par : getNodeR (updateNodeR root (k :: rparent)
          (fun t => t.setChecked CheckState.PartiallyChecked)) rparent
          = (getNodeR root rparent).map
              (modifyChild k (fun t => t.setChecked CheckState.PartiallyChecked)) :=
        getNodeR_updateNodeR root rparent _
      rcases List.suffix_cons_iff.mp hsuf with hq | hq
      · -- rq is the toggled node itself
        subst hq
        cases hpar : getNodeR (updateNodeR root (k :: rparent)
            (fun t => t.setChecked CheckState.PartiallyChecked)) rparent with
        | none =>
          simp only [hpar]
          rw [hr1node]
          simp [SubFolderInfo.setChecked_checked]
        | some parent =>
          by_cases hpc : parent.checked = CheckState.PartiallyChecked
          · simp only [hpar, if_pos hpc]
            rw [hr1node]
            simp [SubFolderInfo.setChecked_checked]
          · simp only [hpar, if_neg hpc]
            rw [setDataF_pr_keeps_node fuel root k rparent CheckState.PartiallyChecked
              CheckState.PartiallyChecked (Or.inl rfl) info hinfo]
            simp [SubFolderInfo.setChecked_checked]
      · -- rq addresses a proper ancestor: the recursion reaches it
        obtain ⟨par, hpar0, hparne⟩ := hyp rparent (List.suffix_cons k rparent) hq
        cases hpar : getNodeR (updateNodeR root (k :: rparent)
            (fun t => t.setChecked CheckState.PartiallyChecked)) rparent with
        | none =>
          rw [hr1par, hpar0] at hpar
          cases hpar
        | some parent =>
          have hparck : parent.checked = par.checked := by
            rw [hr1par, hpar0] at hpar
            simp only [Option.map, Option.some.injEq] at hpar
            rw [← hpar]
            exact modifyChild_checked _ _ _
          by_cases hpc : parent.checked = CheckState.PartiallyChecked
          · exact absurd (hparck ▸ hpc) hparne
          · simp only [hpar, if_neg hpc]
            apply ih (updateNodeR root (k :: rparent)
              (fun t => t.setChecked CheckState.PartiallyChecked)) rparent
              (by simpa using Nat.lt_of_succ_lt_succ hlen) rq hq
            intro rr hrr hqrr
            obtain ⟨t, ht, htne⟩ := hyp rr (hrr.trans (List.suffix_cons k rparent)) hqrr
            obtain ⟨e2, he2⟩ := hrr
            refine ⟨nestChild (k :: e2) (fun t => t.setChecked CheckState.PartiallyChecked) t,
              ?_, ?_⟩
            · have : (k :: rparent) = (k :: e2) ++ rr := by simp [← he2]
              rw [this, getNodeR_updateNodeR_suffix, ht]
              rfl
            · rw [nestChild_checked (by simp) _ t]
              exact htne

theorem modifyChild_subs_of_get? {par info : SubFolderInfo} {k : Nat}
    (hinfo : par.subs.get? k = some info) (f : SubFolderInfo → SubFolderInfo) :
    (modifyChild k f par).subs = par.subs.set k (f info) := by
  unfold modifyChild
  simp only [hinfo, SubFolderInfo.setSubs_subs]

/-- The `checked` field of any node at a proper suffix address (an ancestor)
is untouched by an update at the full address. -/
theorem getNodeR_update_suffix_checked (root : SubFolderInfo) (k : Nat) (rp rq : List Nat)
    (f : SubFolderInfo → SubFolderInfo) (h : rq <:+ rp) :
    (getNodeR (updateNodeR root (k :: rp) f) rq).map SubFolderInfo.checked
      = (getNodeR root rq).map SubFolderInfo.checked := by
  obtain ⟨e2, he2⟩ := h
  have hsplit : k :: rp = (k :: e2) ++ rq := by simp [← he2]
  rw [hsplit, getNodeR_updateNodeR_suffix]
  cases getNodeR root rq with
  | none => rfl
  | some t => simp [nestChild_checked (by simp : (k :: e2) ≠ [])]

/-- Same, for the `pathIdx` field. -/
theorem getNodeR_update_suffix_pathIdx (root : SubFolderInfo) (k : Nat) (rp rq : List Nat)
    (f : SubFolderInfo → SubFolderInfo) (h : rq <:+ rp) :
    (getNodeR (updateNodeR root (k :: rp) f) rq).map SubFolderInfo.pathIdx
      = (getNodeR root rq).map SubFolderInfo.pathIdx := by
  obtain ⟨e2, he2⟩ := h
  have hsplit : k :: rp = (k :: e2) ++ rq := by simp [← he2]
  rw [hsplit, getNodeR_updateNodeR_suffix]
  cases getNodeR root rq with
  | none => rfl
  | some t => simp [nestChild_pathIdx (by simp : (k :: e2) ≠ [])]

/-- The child cascade of the toggled node never changes the `checked` field
of an ancestor (suffix address). -/
theorem cascadeChildren_suffix_checked (s : CheckState) (x : SubFolderInfo) (k : Nat)
    (rp rq : List Nat) (h : rq <:+ rp) :
    (getNodeR (cascadeChildren s x (k :: rp)).1 rq).map SubFolderInfo.checked
      = (getNodeR x rq).map SubFolderInfo.checked := by
  unfold cascadeChildren
  cases hx : getNodeR x (k :: rp) with
  | none => rfl
  | some info => exact getNodeR_update_suffix_checked x k rp rq _ h

theorem map_checked_eq_some {x : Option SubFolderInfo} {c : CheckState}
    (h : x.map SubFolderInfo.checked = some c) : ∃ t, x = some t ∧ t.checked = c := by
  cases x with
  | none => cases h
  | some t =>
    refine ⟨t, rfl, ?_⟩
    simpa using h

/-! ## Lemmas for the blacklist projection and child initialization -/

theorem createBlackListSubs_toList (l : SubList) (prev : List String) :
    createBlackListSubs l prev
      = (l.toList.map (fun c => createBlackList c prev)).flatten := by
  induction l using SubList.inductionOn with
  | nil => rfl
  | cons hd tl ih => simp [createBlackListSubs, SubList.toList, ih]

/-- Closed form of the blacklist consultation loop: a later exact match (or
the universal marker) always wins because it breaks; otherwise any entry
extending the child's path leaves PartiallyChecked behind; otherwise the
accumulator survives. -/
theorem blackListStateLoop_eq (bl : List String) (path : String) (cur : CheckState) :
    blackListStateLoop bl path cur =
      if bl.any (fun str => str = path ∨ str = "/") then CheckState.Unchecked
      else if bl.any (fun str => strStartsWith str path) then CheckState.PartiallyChecked
      else cur := by
  induction bl generalizing cur with
  | nil => simp [blackListStateLoop]
  | cons str rest ih =>
    by_cases h1 : str = path ∨ str = "/"
    · simp [blackListStateLoop, h1]
    · by_cases h2 : strStartsWith str path = true
      · simp only [blackListStateLoop, if_neg h1, if_pos h2]
        rw [ih]
        simp [List.any_cons, h1, h2]
      · simp only [blackListStateLoop, if_neg h1, if_neg h2]
        rw [ih]
        simp [List.any_cons, h1, h2]

/-! ## Claim theorems -/

/-- C1: `projectBlacklist(node, previousBlacklist)` (the source's
`createBlackList`) returns `[node.path]` for an Unchecked node without
recursing; `[]` for a Checked node (hence an all-Checked tree projects to an
empty blacklist); for a PartiallyChecked fetched node the concatenation of
the children's projections in child order; and for a PartiallyChecked
unfetched node exactly the entries of the previous blacklist whose path
starts with `node.path`, verbatim and in their original order. -/
theorem C1_createBlackList (node : SubFolderInfo) (prev : List String) :
    (node.checked = CheckState.Unchecked → createBlackList node prev = [node.path]) ∧
    (node.checked = CheckState.Checked → createBlackList node prev = []) ∧
    (allStateB CheckState.Checked node = true → createBlackList node prev = []) ∧
    (node.checked = CheckState.PartiallyChecked → node.fetched = true →
      createBlackList node prev
        = (node.subs.toList.map (fun c => createBlackList c prev)).flatten) ∧
    (node.checked = CheckState.PartiallyChecked → node.fetched = false →
      createBlackList node prev = prev.filter (fun it => strStartsWith it node.path) ∧
      List.Sublist (createBlackList node prev) prev ∧
      (∀ x, x ∈ createBlackList node prev ↔
        (x ∈ prev ∧ strStartsWith x node.path = true))) := by
  cases node with
  | mk p n pi c f g sz subs =>
    refine ⟨?_, ?_, ?_, ?_, ?_⟩
    · intro hc
      simp only [SubFolderInfo.checked] at hc
      subst hc
      rfl
    · intro hc
      simp only [SubFolderInfo.checked] at hc
      subst hc
      rfl
    · intro hall
      have hc := allStateB_checked hall
      simp only [SubFolderInfo.checked] at hc
      subst hc
      rfl
    · intro hc hf
      simp only [SubFolderInfo.checked] at hc
      simp only [SubFolderInfo.fetched] at hf
      subst hc
      subst hf
      simp [createBlackList, createBlackListSubs_toList, SubFolderInfo.subs]
    · intro hc hf
      simp only [SubFolderInfo.checked] at hc
      simp only [SubFolderInfo.fetched] at hf
      subst hc
      subst hf
      refine ⟨rfl, ?_, ?_⟩
      · exact List.filter_sublist prev
      · intro x
        show x ∈ prev.filter (fun it => strStartsWith it p) ↔ _
        rw [List.mem_filter]
        simp [SubFolderInfo.path]

/-- C1 witness: a PartiallyChecked, unfetched node keeps exactly the old
entries under its path. -/
theorem C1_createBlackList_witness :
    createBlackList
      (SubFolderInfo.mk "/d/" "" [0] CheckState.PartiallyChecked false false 0 SubList.nil)
      ["/d/x", "/e"] = ["/d/x"] := by
  have h := (C1_createBlackList
    (SubFolderInfo.mk "/d/" "" [0] CheckState.PartiallyChecked false false 0 SubList.nil)
    ["/d/x", "/e"]).2.2.2.2 rfl rfl
  rw [h.1]
  decide

/-- C4 (amended): the child's initial state, in closed form.  An Unchecked
parent forces Unchecked; an exact blacklist entry or the universal marker
`"/"` gives Unchecked; otherwise a blacklist entry that the child's path is
a prefix of (`str.startsWith(path)` in the source — not "entry is a prefix
of the path" as the claim words it) gives PartiallyChecked; otherwise the
constructed default Checked. -/
theorem C4_initialCheckState (pc : CheckState) (bl : List String) (path : String) :
    initialCheckState pc bl path =
      if pc = CheckState.Unchecked then CheckState.Unchecked
      else if bl.any (fun str => str = path ∨ str = "/") then CheckState.Unchecked
      else if bl.any (fun str => strStartsWith str path) then CheckState.PartiallyChecked
      else CheckState.Checked := by
  unfold initialCheckState
  by_cases hpc : pc = CheckState.Unchecked
  · simp [hpc]
  · simp only [if_neg hpc]
    exact blackListStateLoop_eq bl path defaultCheckState

/-- C4 counterexample: blacklist `["/a/b"]`, child path `"/a"`, parent
Checked.  No entry equals the path or `"/"`, and no entry is a prefix of the
path, so the claim as stated predicts the inherited default Checked; the code
(`str.startsWith(path)`: `"/a/b"` starts with `"/a"`) produces
PartiallyChecked. -/
theorem C4_counterexample :
    initialCheckState CheckState.Checked ["/a/b"] "/a" = CheckState.PartiallyChecked ∧
    claimInitialCheckState CheckState.Checked ["/a/b"] "/a" = CheckState.Checked ∧
    strStartsWith "/a" "/a/b" = false := by
  decide

/-- C8: the claim is right about `fetched` staying false and no children
appearing, but the code never resets `fetching`: `fetchMore` connects no
error handler (`slotLscolFinishedWithError` is commented out), so after a
failed fetch `canFetchMore` stays false forever and no retry is possible —
the claim says it becomes true again. -/
theorem C8_fetch_failure_keeps_fetching :
    canFetchMore
      (SubFolderInfo.mk "/" "r" [0] CheckState.Checked false false 0 SubList.nil) = true ∧
    (onFetchFailed (fetchMore
      (SubFolderInfo.mk "/" "r" [0] CheckState.Checked false false 0 SubList.nil))).fetched
        = false ∧
    (onFetchFailed (fetchMore
      (SubFolderInfo.mk "/" "r" [0] CheckState.Checked false false 0 SubList.nil))).subs
        = SubList.nil ∧
    (onFetchFailed (fetchMore
      (SubFolderInfo.mk "/" "r" [0] CheckState.Checked false false 0 SubList.nil))).fetching
        = true ∧
    canFetchMore (onFetchFailed (fetchMore
      (SubFolderInfo.mk "/" "r" [0] CheckState.Checked false false 0 SubList.nil))) = false := by
  decide

theorem eq_dropLast_append {p : List Char} {c : Char} (h : p.getLast? = some c) :
    p = p.dropLast ++ [c] := by
  have hne : p ≠ [] := by rintro rfl; cases h
  have h2 := List.getLast?_eq_getLast p hne
  rw [h2, Option.some.injEq] at h
  rw [← h]
  exact (List.dropLast_append_getLast hne).symm

theorem head?_cons_tail {r : List Char} {c : Char} (h : r.head? = some c) :
    r = c :: r.tail := by
  cases r with
  | nil => cases h
  | cons a t =>
    simp only [List.head?, Option.some.injEq] at h
    simp [h]

/-- The joined path, for a non-empty relative path: the base with one
trailing slash chopped, a single junction slash, and the relative path with
one leading slash chopped. -/
theorem concatPaths_eq {p r : List Char} (hr : r ≠ []) :
    concatPaths p r = chopSlashEnd p ++ '/' :: chopSlashStart r := by
  unfold concatPaths chopSlashEnd chopSlashStart
  rw [if_neg (by simpa [List.isEmpty_iff] using hr)]
  by_cases he : p.getLast? = some '/'
  · by_cases hs : r.head? = some '/'
    · rw [if_pos ⟨he, hs⟩, if_pos he, if_pos hs]
      conv_lhs => rw [head?_cons_tail hs]
    · rw [if_neg (fun hh => hs hh.2), if_neg (fun hh => hh.1 he), if_pos he, if_neg hs]
      conv_lhs => rw [eq_dropLast_append he]
      simp
  · by_cases hs : r.head? = some '/'
    · rw [if_neg (fun hh => he hh.1), if_neg (fun hh => hh.2 hs), if_neg he, if_pos hs]
      conv_lhs => rw [head?_cons_tail hs]
    · rw [if_neg (fun hh => he hh.1), if_pos ⟨he, hs⟩, if_neg he, if_neg hs]

/-- C10: `Account::concatUrlPath` leaves scheme, host and port unchanged;
an empty relative path leaves the path unchanged; a non-empty relative path
yields the base path joined to the relative path with exactly one `'/'` at
the junction — one trailing slash of the base is chopped when both boundary
characters are slashes, one is inserted when neither is — and the two sides
of the junction contribute no further slash as long as the base path does
not end in `"//"` and the relative path does not start with `"//"`. -/
theorem C10_concatUrlPath (url : QUrlM) (concatPath : List Char)
    (queryItems : List (String × String)) :
    ((Account.concatUrlPath url concatPath queryItems).scheme = url.scheme ∧
     (Account.concatUrlPath url concatPath queryItems).host = url.host ∧
     (Account.concatUrlPath url concatPath queryItems).port = url.port) ∧
    (concatPath = [] → (Account.concatUrlPath url concatPath queryItems).path = url.path) ∧
    (concatPath ≠ [] →
      (Account.concatUrlPath url concatPath queryItems).path
        = chopSlashEnd url.path ++ '/' :: chopSlashStart concatPath ∧
      (¬ ['/', '/'] <:+ url.path → ¬ (chopSlashEnd url.path).getLast? = some '/') ∧
      (¬ ['/', '/'].isPrefixOf concatPath = true →
        ¬ (chopSlashStart concatPath).head? = some '/')) := by
  refine ⟨⟨rfl, rfl, rfl⟩, ?_, ?_⟩
  · intro hnil
    subst hnil
    rfl
  · intro hne
    refine ⟨concatPaths_eq hne, ?_, ?_⟩
    · intro hsuf
      unfold chopSlashEnd
      by_cases he : url.path.getLast? = some '/'
      · rw [if_pos he]
        intro hlast
        apply hsuf
        have h1 := eq_dropLast_append he
        have h2 := eq_dropLast_append hlast
        refine ⟨url.path.dropLast.dropLast, ?_⟩
        conv_rhs => rw [h1, h2]
        simp
      · rw [if_neg he]
        exact he
    · intro hpre
      unfold chopSlashStart
      by_cases hs : concatPath.head? = some '/'
      · rw [if_pos hs]
        intro hhead
        apply hpre
        have h1 := head?_cons_tail hs
        have h2 := head?_cons_tail hhead
        rw [h1, h2]
        simp [List.isPrefixOf]
      · rw [if_neg hs]
        exact hs

/-- C10 witness: joining `"/a"` and `"b"` inserts the missing slash. -/
theorem C10_concatUrlPath_witness :
    (Account.concatUrlPath ⟨"https", "host", 443, ['/', 'a'], []⟩ ['b'] []).path
      = ['/', 'a', '/', 'b'] := by
  have h := (C10_concatUrlPath ⟨"https", "host", 443, ['/', 'a'], []⟩ ['b'] []).2.2
    (by decide)
  rw [h.1]
  decide

theorem allStateB_eq (s : CheckState) (t : SubFolderInfo) :
    allStateB s t = (decide (t.checked = s) && allStateSubs s t.subs) := by
  cases t; rfl

theorem heredB_eq (s : CheckState) (t : SubFolderInfo) :
    heredB s t = if t.checked = s then allStateSubs s t.subs else heredSubs s t.subs := by
  cases t; rfl

theorem allStateB_of_heredB_checked {s : CheckState} {t : SubFolderInfo}
    (h : heredB s t = true) (hc : t.checked = s) : allStateB s t = true := by
  rw [heredB_eq, if_pos hc] at h
  rw [allStateB_eq, hc]
  simpa using h

/-- C2 (amended): provided every node of the toggled node's materialized
subtree that already has the target state has only target-state descendants
(the hereditary-closure invariant `heredB`), `setCheckState(node, Checked)`
(resp. `Unchecked`) leaves the whole materialized subtree of the node in
that state.  Without the invariant this fails: the down-cascade skips
children already in the target state, leaving their subtrees untouched (see
the counterexample). -/
theorem C2_setData_cascade (root : SubFolderInfo) (rp : List Nat) (s : CheckState)
    (hs : s = CheckState.Checked ∨ s = CheckState.Unchecked)
    (info : SubFolderInfo) (hinfo : getNodeR root rp = some info)
    (hinv : heredB s info = true) :
    ∃ t', getNodeR (setDataR root rp s).1 rp = some t' ∧ allStateB s t' = true := by
  by_cases hc : info.checked = s
  · refine ⟨info, ?_, allStateB_of_heredB_checked hinv hc⟩
    show getNodeR (setDataF (rp.length + 1) root rp s).1 rp = some info
    simp only [setDataF, hinfo, if_pos hc]
  · have hnode := setDataF_node_cascade rp.length root rp s hs info hinfo hc
    refine ⟨_, hnode, ?_⟩
    rw [allStateB_eq]
    rw [SubFolderInfo.setSubs_checked, SubFolderInfo.setChecked_checked,
      SubFolderInfo.setSubs_subs]
    simp only [decide_eq_true_eq, eq_self_iff_true, true_and, Bool.true_and]
    apply cascadeSubsN_allStateSubs
    rw [heredB_eq, if_neg hc] at hinv
    exact hinv

/-- C2 counterexample: node PartiallyChecked, child Checked, grandchild
Unchecked (a reachable shape: a fetch under a Checked parent can create
Unchecked children from the blacklist).  Toggling the node to Checked skips
the already-Checked child, so the fetched grandchild stays Unchecked — the
claim says every already-fetched descendant becomes Checked. -/
theorem C2_counterexample :
    ((getNodeR (setDataR (SubFolderInfo.mk "/" "r" [0] CheckState.PartiallyChecked true false 0
        (SubList.cons (SubFolderInfo.mk "/a" "a" [0, 0] CheckState.Checked true false 0
          (SubList.cons (SubFolderInfo.mk "/a/b" "b" [0, 0, 0] CheckState.Unchecked
            true false 0 SubList.nil) SubList.nil)) SubList.nil)) [] CheckState.Checked).1 []).map SubFolderInfo.checked
      = some CheckState.Checked) ∧
    ((getNodeR (setDataR (SubFolderInfo.mk "/" "r" [0] CheckState.PartiallyChecked true false 0
        (SubList.cons (SubFolderInfo.mk "/a" "a" [0, 0] CheckState.Checked true false 0
          (SubList.cons (SubFolderInfo.mk "/a/b" "b" [0, 0, 0] CheckState.Unchecked
            true false 0 SubList.nil) SubList.nil)) SubList.nil)) [] CheckState.Checked).1 [0, 0]).map SubFolderInfo.checked
      = some CheckState.Unchecked) := by
  decide

/-- C2 witness: a PartiallyChecked node with one Unchecked child satisfies
the invariant for target Checked; toggling it to Checked makes the whole
subtree Checked. -/
theorem C2_setData_cascade_witness :
    ∃ t', getNodeR (setDataR
      (SubFolderInfo.mk "/" "r" [0] CheckState.PartiallyChecked true false 0
        (SubList.cons (SubFolderInfo.mk "/a" "a" [0, 0] CheckState.Unchecked true false 0
          SubList.nil) SubList.nil)) [] CheckState.Checked).1 [] = some t'
      ∧ allStateB CheckState.Checked t' = true :=
  C2_setData_cascade _ [] CheckState.Checked (Or.inl rfl) _ rfl (by decide)

/-- C3 (amended): one setData call on the node at child position `k` under
the parent at ancestor address `rp`.  (a) toggling to Checked with every
other materialized sibling Checked sets the parent to Checked; (b) otherwise
the parent moves to PartiallyChecked exactly when it was Unchecked; (c) a
PartiallyChecked parent with a non-Checked sibling is left unchanged;
(d) toggling to Unchecked demotes a Checked parent to PartiallyChecked; and
(e) — correcting the claim's "no further ancestor is forced" — the
PartiallyChecked demotion propagates recursively to every further ancestor
reached through a chain of non-PartiallyChecked states. -/
theorem C3_parent_reevaluation (root : SubFolderInfo) (k : Nat) (rp : List Nat)
    (par info : SubFolderInfo)
    (hpar : getNodeR root rp = some par)
    (hinfo : par.subs.get? k = some info) :
    ((¬ info.checked = CheckState.Checked) → (¬ par.checked = CheckState.Checked) →
      (∀ j c, ¬ j = k → par.subs.get? j = some c → c.checked = CheckState.Checked) →
      (getNodeR (setDataR root (k :: rp) CheckState.Checked).1 rp).map SubFolderInfo.checked
        = some CheckState.Checked) ∧
    ((¬ info.checked = CheckState.Checked) → par.checked = CheckState.Unchecked →
      (∃ j c, ¬ j = k ∧ par.subs.get? j = some c ∧ ¬ c.checked = CheckState.Checked) →
      (getNodeR (setDataR root (k :: rp) CheckState.Checked).1 rp).map SubFolderInfo.checked
        = some CheckState.PartiallyChecked) ∧
    ((¬ info.checked = CheckState.Checked) → par.checked = CheckState.PartiallyChecked →
      (∃ j c, ¬ j = k ∧ par.subs.get? j = some c ∧ ¬ c.checked = CheckState.Checked) →
      (getNodeR (setDataR root (k :: rp) CheckState.Checked).1 rp).map SubFolderInfo.checked
        = some CheckState.PartiallyChecked) ∧
    ((¬ info.checked = CheckState.Unchecked) → par.checked = CheckState.Checked →
      (getNodeR (setDataR root (k :: rp) CheckState.Unchecked).1 rp).map SubFolderInfo.checked
        = some CheckState.PartiallyChecked) ∧
    ((¬ info.checked = CheckState.Unchecked) → par.checked = CheckState.Checked →
      ∀ rq, rq <:+ rp →
      (∀ rr, rr <:+ rp → rq <:+ rr →
        ∃ t, getNodeR root rr = some t ∧ ¬ t.checked = CheckState.PartiallyChecked) →
      (getNodeR (setDataR root (k :: rp) CheckState.Unchecked).1 rq).map SubFolderInfo.checked
        = some CheckState.PartiallyChecked) := by
  have hfull : getNodeR root (k :: rp) = some info := by
    simp [getNodeR, hpar, hinfo]
  have hr1parC : getNodeR (updateNodeR root (k :: rp)
      (fun t => t.setChecked CheckState.Checked)) rp
      = some (modifyChild k (fun t => t.setChecked CheckState.Checked) par) := by
    show getNodeR (updateNodeR root rp
      (modifyChild k (fun t => t.setChecked CheckState.Checked))) rp = _
    rw [getNodeR_updateNodeR, hpar]
    rfl
  have hr1parU : getNodeR (updateNodeR root (k :: rp)
      (fun t => t.setChecked CheckState.Unchecked)) rp
      = some (modifyChild k (fun t => t.setChecked CheckState.Unchecked) par) := by
    show getNodeR (updateNodeR root rp
      (modifyChild k (fun t => t.setChecked CheckState.Unchecked))) rp = _
    rw [getNodeR_updateNodeR, hpar]
    rfl
  have hmcC : (modifyChild k (fun t => t.setChecked CheckState.Checked) par).checked
      = par.checked := modifyChild_checked _ _ _
  have hmcU : (modifyChild k (fun t => t.setChecked CheckState.Unchecked) par).checked
      = par.checked := modifyChild_checked _ _ _
  have hmcsubs : (modifyChild k (fun t => t.setChecked CheckState.Checked) par).subs
      = par.subs.set k (info.setChecked CheckState.Checked) :=
    modifyChild_subs_of_get? hinfo _
  refine ⟨?_, ?_, ?_, ?_, ?_⟩
  · -- (a) promotion to Checked
    intro hne hpc hsib
    have hallset : (par.subs.set k (info.setChecked CheckState.Checked)).allB
        (fun sub => sub.checked = CheckState.Checked) = true := by
      rw [SubList.allB_iff]
      intro j c hj
      by_cases hjk : j = k
      · subst hjk
        rw [SubList.get?_set_eq _ hinfo] at hj
        cases hj
        simp [SubFolderInfo.setChecked_checked]
      · rw [SubList.get?_set_ne _ hjk] at hj
        simp only [decide_eq_true_eq]
        exact hsib j c hjk hj
    simp only [setDataR, List.length_cons]
    rw [setDataF.eq_def]
    simp only [hfull]
    rw [if_neg hne]
    simp only [hr1parC]
    rw [if_neg (by rw [hmcC]; exact hpc)]
    rw [if_pos (by rw [hmcsubs]; exact hallset)]
    rw [cascadeChildren_suffix_checked _ _ k rp rp List.suffix_rfl]
    rw [setDataF_node_cascade rp.length _ rp CheckState.Checked (Or.inl rfl) _ hr1parC
      (by rw [hmcC]; exact hpc)]
    simp [SubFolderInfo.setSubs_checked, SubFolderInfo.setChecked_checked]
  · -- (b) Unchecked parent with a non-Checked sibling moves to Partial
    intro hne hpu hsib
    have hallneg : ¬ ((par.subs.set k (info.setChecked CheckState.Checked)).allB
        (fun sub => sub.checked = CheckState.Checked) = true) := by
      obtain ⟨j, c, hjk, hjc, hcc⟩ := hsib
      intro hall
      rw [SubList.allB_iff] at hall
      have := hall j c (by rw [SubList.get?_set_ne _ hjk]; exact hjc)
      exact hcc (by simpa using this)
    simp only [setDataR, List.length_cons]
    rw [setDataF.eq_def]
    simp only [hfull]
    rw [if_neg hne]
    simp only [hr1parC]
    rw [if_neg (by rw [hmcC, hpu]; decide)]
    rw [if_neg (by rw [hmcsubs]; exact hallneg)]
    rw [if_pos (by rw [hmcC]; exact hpu)]
    rw [cascadeChildren_suffix_checked _ _ k rp rp List.suffix_rfl]
    rw [setDataF_node_partialState rp.length _ rp _ hr1parC (by rw [hmcC, hpu]; decide)]
    simp [SubFolderInfo.setChecked_checked]
  · -- (c) PartiallyChecked parent with a non-Checked sibling: unchanged
    intro hne hpp hsib
    have hallneg : ¬ ((par.subs.set k (info.setChecked CheckState.Checked)).allB
        (fun sub => sub.checked = CheckState.Checked) = true) := by
      obtain ⟨j, c, hjk, hjc, hcc⟩ := hsib
      intro hall
      rw [SubList.allB_iff] at hall
      have := hall j c (by rw [SubList.get?_set_ne _ hjk]; exact hjc)
      exact hcc (by simpa using this)
    simp only [setDataR, List.length_cons]
    rw [setDataF.eq_def]
    simp only [hfull]
    rw [if_neg hne]
    simp only [hr1parC]
    rw [if_neg (by rw [hmcC, hpp]; decide)]
    rw [if_neg (by rw [hmcsubs]; exact hallneg)]
    rw [if_neg (by rw [hmcC, hpp]; decide)]
    rw [cascadeChildren_suffix_checked _ _ k rp rp List.suffix_rfl]
    rw [hr1parC]
    simp [hmcC, hpp]
  · -- (d) Unchecked toggle demotes a Checked parent
    intro hne hpc
    simp only [setDataR, List.length_cons]
    rw [setDataF.eq_def]
    simp only [hfull]
    rw [if_neg hne]
    simp only [hr1parU]
    rw [if_pos (by rw [hmcU]; exact hpc)]
    rw [cascadeChildren_suffix_checked _ _ k rp rp List.suffix_rfl]
    rw [setDataF_node_partialState rp.length _ rp _ hr1parU (by rw [hmcU, hpc]; decide)]
    simp [SubFolderInfo.setChecked_checked]
  · -- (e) the demotion propagates through non-PartiallyChecked ancestors
    intro hne hpc rq hsuf hyp
    simp only [setDataR, List.length_cons]
    rw [setDataF.eq_def]
    simp only [hfull]
    rw [if_neg hne]
    simp only [hr1parU]
    rw [if_pos (by rw [hmcU]; exact hpc)]
    rw [cascadeChildren_suffix_checked _ _ k rp rq hsuf]
    apply setDataF_partial_chain (rp.length + 1) _ rp (by simp) rq hsuf
    intro rr hrr hqrr
    obtain ⟨t, ht, htne⟩ := hyp rr hrr hqrr
    have hpres := getNodeR_update_suffix_checked root k rp rr
      (fun t => t.setChecked CheckState.Unchecked) hrr
    rw [ht] at hpres
    obtain ⟨t', ht', hch⟩ := map_checked_eq_some hpres
    refine ⟨t', ht', ?_⟩
    rw [hch]
    exact htne

/-- C3 counterexample: in a three-level all-Checked tree, unchecking the
grandchild demotes its parent to PartiallyChecked, and — contrary to the
claim's "no further ancestor is forced" — the PartiallyChecked assignment
re-evaluates ITS parent too (lines 198-204), demoting the Checked root to
PartiallyChecked as well. -/
theorem C3_counterexample :
    ((getNodeR (SubFolderInfo.mk "/" "r" [0] CheckState.Checked true false 0
      (SubList.cons (SubFolderInfo.mk "/a" "a" [0, 0] CheckState.Checked true false 0
        (SubList.cons (SubFolderInfo.mk "/a/b" "b" [0, 0, 0] CheckState.Checked true false 0
          SubList.nil) SubList.nil)) SubList.nil)) []).map SubFolderInfo.checked = some CheckState.Checked) ∧
    ((getNodeR (setDataR (SubFolderInfo.mk "/" "r" [0] CheckState.Checked true false 0
      (SubList.cons (SubFolderInfo.mk "/a" "a" [0, 0] CheckState.Checked true false 0
        (SubList.cons (SubFolderInfo.mk "/a/b" "b" [0, 0, 0] CheckState.Checked true false 0
          SubList.nil) SubList.nil)) SubList.nil)) [0, 0] CheckState.Unchecked).1 []).map SubFolderInfo.checked
      = some CheckState.PartiallyChecked) := by
  decide

/-- C3 witness: part (d) applied in the same three-level tree — the direct
parent of the unchecked grandchild is demoted to PartiallyChecked. -/
theorem C3_parent_reevaluation_witness :
    (getNodeR (setDataR (SubFolderInfo.mk "/" "r" [0] CheckState.Checked true false 0
      (SubList.cons (SubFolderInfo.mk "/a" "a" [0, 0] CheckState.Checked true false 0
        (SubList.cons (SubFolderInfo.mk "/a/b" "b" [0, 0, 0] CheckState.Checked true false 0
          SubList.nil) SubList.nil)) SubList.nil)) [0, 0] CheckState.Unchecked).1 [0]).map SubFolderInfo.checked
      = some CheckState.PartiallyChecked :=
  (C3_parent_reevaluation (SubFolderInfo.mk "/" "r" [0] CheckState.Checked true false 0
      (SubList.cons (SubFolderInfo.mk "/a" "a" [0, 0] CheckState.Checked true false 0
        (SubList.cons (SubFolderInfo.mk "/a/b" "b" [0, 0, 0] CheckState.Checked true false 0
          SubList.nil) SubList.nil)) SubList.nil)) 0 [0]
    (SubFolderInfo.mk "/a" "a" [0, 0] CheckState.Checked true false 0
      (SubList.cons (SubFolderInfo.mk "/a/b" "b" [0, 0, 0] CheckState.Checked true false 0
        SubList.nil) SubList.nil))
    (SubFolderInfo.mk "/a/b" "b" [0, 0, 0] CheckState.Checked true false 0 SubList.nil)
    (by decide) (by decide)).2.2.2.1 (by decide) (by decide)

theorem listSetSelf {α : Type} (l : List α) (k : Nat) (c : α)
    (h : l.get? k = some c) : l.set k c = l := by
  induction l generalizing k with
  | nil => rfl
  | cons hd tl ih =>
    cases k with
    | zero =>
      simp only [List.get?] at h
      cases h
      rfl
    | succ n =>
      simp only [List.get?] at h
      simp [List.set, ih n h]

/-- Whatever happens inside `setData`, line 209 emits `dataChanged` for the
toggled index last — also when nothing changed at all. -/
theorem setDataR_emits_last (root : SubFolderInfo) (rp : List Nat) (s : CheckState) :
    ∃ l, (setDataR root rp s).2 = l ++ [rp] := by
  show ∃ l, (setDataF (rp.length + 1) root rp s).2 = l ++ [rp]
  rw [setDataF.eq_def]
  cases hinfo : getNodeR root rp with
  | none => exact ⟨[], by simp [hinfo]⟩
  | some info =>
    by_cases hc : info.checked = s
    · exact ⟨[], by simp [hinfo, hc]⟩
    · cases s with
      | Unchecked =>
        simp only [hinfo, if_neg hc]
        exact ⟨_, rfl⟩
      | PartiallyChecked =>
        simp only [hinfo, if_neg hc]
        exact ⟨_, rfl⟩
      | Checked =>
        simp only [hinfo, if_neg hc]
        exact ⟨_, rfl⟩

/-- The no-change characterization of `setData` at equal state: lines
154-206 are skipped entirely, lines 207-210 still run. -/
theorem setDataR_noop (root : SubFolderInfo) (rp : List Nat) (s : CheckState)
    (info : SubFolderInfo) (hinfo : getNodeR root rp = some info)
    (heq : info.checked = s) : setDataR root rp s = (root, [rp]) := by
  show setDataF (rp.length + 1) root rp s = (root, [rp])
  rw [setDataF.eq_def]
  simp [hinfo, heq]

/-- C7 (amended): calling `setData` with the node's current state changes no
node (the tree is returned unchanged), but the model is still marked dirty
and a change notification is still emitted — exactly one, for the toggled
node itself.  In general every `setData` call ends by emitting a
notification for the toggled node, whether or not anything changed. -/
theorem C7_setData_noop_notification (st : FolderStatusModelState) (rootIdx : Nat)
    (rpath : List Nat) (s : CheckState) (root info : SubFolderInfo)
    (hroot : st.folders.get? rootIdx = some root)
    (hinfo : getNodeR root rpath = some info)
    (heq : info.checked = s) :
    (modelSetData st rootIdx rpath s).1.folders = st.folders ∧
    (modelSetData st rootIdx rpath s).1.dirty = true ∧
    (modelSetData st rootIdx rpath s).2 = [rpath] ∧
    (∀ (st2 : FolderStatusModelState) (rootIdx2 : Nat) (rpath2 : List Nat) (s2 : CheckState),
      ∃ l, (modelSetData st2 rootIdx2 rpath2 s2).2 = l ++ [rpath2]) := by
  have hno := setDataR_noop root rpath s info hinfo heq
  refine ⟨?_, ?_, ?_, ?_⟩
  · unfold modelSetData
    simp only [hroot, hno]
    exact listSetSelf _ _ _ hroot
  · unfold modelSetData
    simp only [hroot]
  · unfold modelSetData
    simp only [hroot, hno]
  · intro st2 rootIdx2 rpath2 s2
    unfold modelSetData
    cases h2 : st2.folders.get? rootIdx2 with
    | none => exact ⟨[], by simp [h2]⟩
    | some root2 =>
      obtain ⟨l, hl⟩ := setDataR_emits_last root2 rpath2 s2
      exact ⟨l, by simp only [h2]; exact hl⟩

/-- C7 counterexample: toggling a node to its current state is claimed to
mutate nothing and emit no notification; the code (lines 207-210) still sets
`_dirty` (observable: a later apply is no longer a no-op) and still emits
`dataChanged` for the index. -/
theorem C7_counterexample :
    (modelSetData
      ⟨[SubFolderInfo.mk "/" "r" [0] CheckState.Checked true false 0 SubList.nil], false⟩
      0 [] CheckState.Checked).1.dirty = true ∧
    (modelSetData
      ⟨[SubFolderInfo.mk "/" "r" [0] CheckState.Checked true false 0 SubList.nil], false⟩
      0 [] CheckState.Checked).2 = [[]] := by
  decide

/-- C7 witness: the no-op characterization at a concrete one-node model. -/
theorem C7_setData_noop_notification_witness :
    (modelSetData
      ⟨[SubFolderInfo.mk "/" "r" [0] CheckState.Checked true false 0 SubList.nil], false⟩
      0 [] CheckState.Checked).1.folders
      = [SubFolderInfo.mk "/" "r" [0] CheckState.Checked true false 0 SubList.nil] ∧
    (modelSetData
      ⟨[SubFolderInfo.mk "/" "r" [0] CheckState.Checked true false 0 SubList.nil], false⟩
      0 [] CheckState.Checked).1.dirty = true ∧
    (modelSetData
      ⟨[SubFolderInfo.mk "/" "r" [0] CheckState.Checked true false 0 SubList.nil], false⟩
      0 [] CheckState.Checked).2 = [[]] ∧
    (∀ (st2 : FolderStatusModelState) (rootIdx2 : Nat) (rpath2 : List Nat) (s2 : CheckState),
      ∃ l, (modelSetData st2 rootIdx2 rpath2 s2).2 = l ++ [rpath2]) :=
  C7_setData_noop_notification
    ⟨[SubFolderInfo.mk "/" "r" [0] CheckState.Checked true false 0 SubList.nil], false⟩
    0 [] CheckState.Checked
    (SubFolderInfo.mk "/" "r" [0] CheckState.Checked true false 0 SubList.nil)
    (SubFolderInfo.mk "/" "r" [0] CheckState.Checked true false 0 SubList.nil)
    rfl rfl rfl

theorem SubFolderInfo.setSubs_fetched (t : SubFolderInfo) (l : SubList) :
    (t.setSubs l).fetched = t.fetched := by cases t; rfl

theorem SubFolderInfo.setSubs_fetching (t : SubFolderInfo) (l : SubList) :
    (t.setSubs l).fetching = t.fetching := by cases t; rfl

theorem SubFolderInfo.setFetched_fetched (t : SubFolderInfo) (b : Bool) :
    (t.setFetched b).fetched = b := by cases t; rfl

theorem SubFolderInfo.setFetching_fetched (t : SubFolderInfo) (b : Bool) :
    (t.setFetching b).fetched = t.fetched := by cases t; rfl

theorem SubFolderInfo.setFetching_fetching (t : SubFolderInfo) (b : Bool) :
    (t.setFetching b).fetching = b := by cases t; rfl

theorem SubList.toList_append (a b : SubList) :
    (a.append b).toList = a.toList ++ b.toList := by
  induction a using SubList.inductionOn with
  | nil => rfl
  | cons hd tl ih => simp [SubList.append, SubList.toList, ih]

theorem processEntries_map_path (pidx : List Nat) (pc : CheckState) (bl : List String)
    (ptr : String) (sizes : String → Nat) :
    ∀ (i : Nat) (list : List String),
    (processEntries pidx pc bl ptr sizes i list).toList.map SubFolderInfo.path
      = (list.map (fun p => qRemoveAll p ptr)).filter (fun p => ¬ p = "") := by
  intro i list
  induction list generalizing i with
  | nil => rfl
  | cons p rest ih =>
    by_cases h : qRemoveAll p ptr = ""
    · simp [processEntries, h, ih]
    · simp [processEntries, h, ih, SubList.toList, SubFolderInfo.path]

theorem processEntries_map_name (pidx : List Nat) (pc : CheckState) (bl : List String)
    (ptr : String) (sizes : String → Nat) :
    ∀ (i : Nat) (list : List String),
    (processEntries pidx pc bl ptr sizes i list).toList.map SubFolderInfo.name
      = (((list.map (fun p => qRemoveAll p ptr)).filter (fun p => ¬ p = "")).map
          lastSegment) := by
  intro i list
  induction list generalizing i with
  | nil => rfl
  | cons p rest ih =>
    by_cases h : qRemoveAll p ptr = ""
    · simp [processEntries, h, ih]
    · simp [processEntries, h, ih, SubList.toList, SubFolderInfo.name]

/-- C6 (amended): `slotUpdateDirectories` drops exactly the first entry of
the listing, and for each remaining entry it removes EVERY occurrence of the
remote-root string (the base path with a trailing `'/'` ensured) from the
path — `QString::remove`, not a prefix strip as the claim words it.  Entries
whose path reduces to empty are skipped; the surviving children are appended
after any existing children in listing order, each carrying the removal
result as its path and the last non-empty path segment as its name; the node
becomes fetched and stops fetching. -/
theorem C6_slotUpdateDirectories (parent : SubFolderInfo) (bl : List String)
    (urlPath : String) (sizes : String → Nat) (list_ : List String) :
    ((slotUpdateDirectories parent bl urlPath sizes list_).subs.toList.map SubFolderInfo.path
      = parent.subs.toList.map SubFolderInfo.path
        ++ ((list_.drop 1).map (fun p => qRemoveAll p (pathToRemoveOf urlPath))).filter
            (fun p => ¬ p = "")) ∧
    ((slotUpdateDirectories parent bl urlPath sizes list_).subs.toList.map SubFolderInfo.name
      = parent.subs.toList.map SubFolderInfo.name
        ++ (((list_.drop 1).map (fun p => qRemoveAll p (pathToRemoveOf urlPath))).filter
            (fun p => ¬ p = "")).map lastSegment) ∧
    (slotUpdateDirectories parent bl urlPath sizes list_).fetched = true ∧
    (slotUpdateDirectories parent bl urlPath sizes list_).fetching = false := by
  unfold slotUpdateDirectories
  refine ⟨?_, ?_, ?_, ?_⟩
  · rw [SubFolderInfo.setSubs_subs, SubList.toList_append, List.map_append,
      processEntries_map_path]
  · rw [SubFolderInfo.setSubs_subs, SubList.toList_append, List.map_append,
      processEntries_map_name]
  · rw [SubFolderInfo.setSubs_fetched, SubFolderInfo.setFetching_fetched,
      SubFolderInfo.setFetched_fetched]
  · rw [SubFolderInfo.setSubs_fetching, SubFolderInfo.setFetching_fetching]

/-- C6 counterexample: remote root `"/oc"` (so the removal string is
`"/oc/"`) and a child entry `"/oc/x/oc/y"` that contains the removal string
twice.  `QString::remove` removes both occurrences, producing `"xy"`; the
claim's "strip the remote-root prefix, leaving the rest of the path intact"
predicts `"x/oc/y"`. -/
theorem C6_counterexample :
    (slotUpdateDirectories
      (SubFolderInfo.mk "/" "r" [0] CheckState.Checked false false 0 SubList.nil)
      [] "/oc" (fun _ => 0) ["/oc/", "/oc/x/oc/y"]).subs.toList.map SubFolderInfo.path
      = ["xy"] ∧ ¬ ("xy" = "x/oc/y") := by
  decide

theorem processEntries_pathIdx (pidx : List Nat) (pc : CheckState) (bl : List String)
    (ptr : String) (sizes : String → Nat) :
    ∀ (i : Nat) (list : List String), (∀ p ∈ list, ¬ qRemoveAll p ptr = "") →
    ∀ j, ((processEntries pidx pc bl ptr sizes i list).get? j).map SubFolderInfo.pathIdx
      = if j < list.length then some (pidx ++ [i + j]) else none := by
  intro i list
  induction list generalizing i with
  | nil =>
    intro _ j
    simp [processEntries, SubList.get?]
  | cons p rest ih =>
    intro hns j
    have hp : ¬ qRemoveAll p ptr = "" := hns p (by simp)
    simp only [processEntries, if_neg hp]
    cases j with
    | zero => simp [SubList.get?, SubFolderInfo.pathIdx]
    | succ n =>
      have := ih (i + 1) (fun q hq => hns q (by simp [hq])) n
      simp only [SubList.get?]
      rw [this]
      by_cases hn : n < rest.length
      · rw [if_pos hn, if_pos (by simpa using Nat.succ_lt_succ hn)]
        have : i + 1 + n = i + (n + 1) := by omega
        rw [this]
      · rw [if_neg hn, if_neg (by simp; omega)]

/-- C9 (amended): root materialization gives `pathIndex = [row]`.  For the
children appended by `onFetchComplete`, the last element of the pathIndex is
the child's position in the processed listing — the counter is incremented
also for entries skipped as empty — so it equals the child's index in the
parent's child sequence exactly when no entry was skipped and the parent had
no previous children.  `setCheckState` never changes the toggled node's
pathIndex. -/
theorem C9_pathIdx_addressing (row : Nat) (aliasName : String) (parent : SubFolderInfo)
    (bl : List String) (urlPath : String) (sizes : String → Nat) (list_ : List String)
    (root : SubFolderInfo) (rp : List Nat) (s : CheckState) :
    (mkRootInfo row aliasName).pathIdx = [row] ∧
    (parent.subs = SubList.nil →
      (∀ p ∈ list_.drop 1, ¬ qRemoveAll p (pathToRemoveOf urlPath) = "") →
      ∀ j, (((slotUpdateDirectories parent bl urlPath sizes list_).subs.get? j).map
          SubFolderInfo.pathIdx)
        = if j < (list_.drop 1).length then some (parent.pathIdx ++ [j]) else none) ∧
    ((getNodeR (setDataR root rp s).1 rp).map SubFolderInfo.pathIdx
      = (getNodeR root rp).map SubFolderInfo.pathIdx) := by
  refine ⟨rfl, ?_, ?_⟩
  · intro hnil hns j
    unfold slotUpdateDirectories
    rw [SubFolderInfo.setSubs_subs, hnil]
    show ((processEntries parent.pathIdx parent.checked bl
      (pathToRemoveOf urlPath) sizes 0 (list_.drop 1)).get? j).map SubFolderInfo.pathIdx = _
    rw [processEntries_pathIdx _ _ _ _ _ 0 _ hns j]
    by_cases hj : j < (list_.drop 1).length
    · rw [if_pos hj, if_pos hj]
      simp
    · rw [if_neg hj, if_neg hj]
  · cases hinfo : getNodeR root rp with
    | none =>
      show (getNodeR (setDataF (rp.length + 1) root rp s).1 rp).map SubFolderInfo.pathIdx = _
      rw [setDataF.eq_def]
      simp [hinfo]
    | some info =>
      by_cases hc : info.checked = s
      · rw [setDataR_noop root rp s info hinfo hc]
        simp [hinfo]
      · cases s with
        | PartiallyChecked =>
          show (getNodeR (setDataF (rp.length + 1) root rp
            CheckState.PartiallyChecked).1 rp).map SubFolderInfo.pathIdx = _
          rw [setDataF_node_partialState rp.length root rp info hinfo hc]
          simp [SubFolderInfo.setChecked_pathIdx]
        | Checked =>
          show (getNodeR (setDataF (rp.length + 1) root rp
            CheckState.Checked).1 rp).map SubFolderInfo.pathIdx = _
          rw [setDataF_node_cascade rp.length root rp CheckState.Checked (Or.inl rfl)
            info hinfo hc]
          simp [SubFolderInfo.setSubs_pathIdx, SubFolderInfo.setChecked_pathIdx]
        | Unchecked =>
          show (getNodeR (setDataF (rp.length + 1) root rp
            CheckState.Unchecked).1 rp).map SubFolderInfo.pathIdx = _
          rw [setDataF_node_cascade rp.length root rp CheckState.Unchecked (Or.inr rfl)
            info hinfo hc]
          simp [SubFolderInfo.setSubs_pathIdx, SubFolderInfo.setChecked_pathIdx]

/-- C9 counterexample: with remote root `"/oc"`, the listing
`["x", "/oc/", "/oc/a"]` first drops `"x"` (self entry); then `"/oc/"`
reduces to the empty path and is skipped, but `i++` has already run; the
surviving child `"a"` sits at position 0 of the child sequence while its
pathIndex ends in 1 — the claimed address invariant does not hold. -/
theorem C9_counterexample :
    ¬ (((slotUpdateDirectories
        (SubFolderInfo.mk "/" "r" [0] CheckState.Checked false false 0 SubList.nil)
        [] "/oc" (fun _ => 0) ["x", "/oc/", "/oc/a"]).subs.get? 0).map SubFolderInfo.pathIdx
      = some ([0] ++ [0])) ∧
    (((slotUpdateDirectories
        (SubFolderInfo.mk "/" "r" [0] CheckState.Checked false false 0 SubList.nil)
        [] "/oc" (fun _ => 0) ["x", "/oc/", "/oc/a"]).subs.get? 0).map SubFolderInfo.pathIdx
      = some [0, 1]) := by
  decide

/-- C9 witness: with no skipped entries the appended children's pathIndex
extends the parent's by their child index. -/
theorem C9_pathIdx_addressing_witness :
    (((slotUpdateDirectories
        (SubFolderInfo.mk "/" "r" [0] CheckState.Checked false false 0 SubList.nil)
        [] "/oc" (fun _ => 0) ["x", "/oc/a", "/oc/b"]).subs.get? 1).map SubFolderInfo.pathIdx)
      = if 1 < (["x", "/oc/a", "/oc/b"].drop 1).length then
          some ((SubFolderInfo.mk "/" "r" [0] CheckState.Checked false false 0
            SubList.nil).pathIdx ++ [1])
        else none :=
  (C9_pathIdx_addressing 0 "r"
    (SubFolderInfo.mk "/" "r" [0] CheckState.Checked false false 0 SubList.nil)
    [] "/oc" (fun _ => 0) ["x", "/oc/a", "/oc/b"]
    (SubFolderInfo.mk "/" "r" [0] CheckState.Checked false false 0 SubList.nil)
    [] CheckState.Checked).2.1 rfl (by decide) 1

theorem applyLoop_folders :
    ∀ (fl : List FolderStub) (mf : List SubFolderInfo) (i0 j : Nat),
    (applyLoop i0 fl mf).folders.get? j =
      match fl.get? j, mf.get? j with
      | some f, some m =>
        some (if m.fetched = true then { f with blackList := createBlackList m f.blackList }
              else f)
      | some f, none => some f
      | none, _ => none := by
  intro fl
  induction fl with
  | nil =>
    intro mf i0 j
    cases mf <;> simp [applyLoop, List.get?]
  | cons f fs ih =>
    intro mf i0 j
    cases mf with
    | nil =>
      cases j with
      | zero => simp [applyLoop, List.get?]
      | succ n =>
        simp only [applyLoop, List.get?]
        cases hx : fs.get? n <;> simp [hx]
    | cons m ms =>
      by_cases hf : m.fetched = false
      · simp only [applyLoop, if_pos hf]
        cases j with
        | zero => simp [List.get?, hf]
        | succ n => simpa [List.get?] using ih ms (i0 + 1) n
      · have hft : m.fetched = true := by
          cases hm : m.fetched
          · exact absurd hm hf
          · rfl
        by_cases hch : symmDiffL f.blackList (createBlackList m f.blackList) = []
        · simp only [applyLoop, if_neg hf, if_pos hch]
          cases j with
          | zero => simp [List.get?, hft]
          | succ n => simpa [List.get?] using ih ms (i0 + 1) n
        · simp only [applyLoop, if_neg hf, if_neg hch]
          cases j with
          | zero => simp [List.get?, hft]
          | succ n => simpa [List.get?] using ih ms (i0 + 1) n

theorem applyLoop_scheduled :
    ∀ (fl : List FolderStub) (mf : List SubFolderInfo) (i0 x : Nat),
    (x ∈ (applyLoop i0 fl mf).scheduled ↔
      ∃ j f m, x = i0 + j ∧ fl.get? j = some f ∧ mf.get? j = some m ∧ m.fetched = true ∧
        ¬ symmDiffL f.blackList (createBlackList m f.blackList) = []) := by
  intro fl
  induction fl with
  | nil =>
    intro mf i0 x
    simp only [applyLoop]
    constructor
    · intro h; cases h
    · rintro ⟨j, f, m, _, hfj, _⟩
      simp [List.get?] at hfj
  | cons f fs ih =>
    intro mf i0 x
    cases mf with
    | nil =>
      simp only [applyLoop]
      constructor
      · intro h; cases h
      · rintro ⟨j, ff, m, _, _, hmj, _⟩
        simp [List.get?] at hmj
    | cons m ms =>
      have shift : (x ∈ (applyLoop (i0 + 1) fs ms).scheduled ↔
          ∃ j ff mm, x = i0 + (j + 1) ∧ fs.get? j = some ff ∧ ms.get? j = some mm ∧
            mm.fetched = true ∧
            ¬ symmDiffL ff.blackList (createBlackList mm ff.blackList) = []) := by
        rw [ih ms (i0 + 1) x]
        constructor
        · rintro ⟨j, ff, mm, hx, h1, h2, h3, h4⟩
          exact ⟨j, ff, mm, by omega, h1, h2, h3, h4⟩
        · rintro ⟨j, ff, mm, hx, h1, h2, h3, h4⟩
          exact ⟨j, ff, mm, by omega, h1, h2, h3, h4⟩
      by_cases hf : m.fetched = false
      · simp only [applyLoop, if_pos hf]
        rw [shift]
        constructor
        · rintro ⟨j, ff, mm, hx, h1, h2, h3, h4⟩
          exact ⟨j + 1, ff, mm, hx, by simpa [List.get?] using h1,
            by simpa [List.get?] using h2, h3, h4⟩
        · rintro ⟨j, ff, mm, hx, h1, h2, h3, h4⟩
          cases j with
          | zero =>
            simp only [List.get?] at h2
            cases h2
            rw [h3] at hf
            exact absurd hf (by decide)
          | succ n =>
            exact ⟨n, ff, mm, hx, by simpa [List.get?] using h1,
              by simpa [List.get?] using h2, h3, h4⟩
      · have hft : m.fetched = true := by
          cases hm : m.fetched
          · exact absurd hm hf
          · rfl
        by_cases hch : symmDiffL f.blackList (createBlackList m f.blackList) = []
        · simp only [applyLoop, if_neg hf, if_pos hch]
          rw [shift]
          constructor
          · rintro ⟨j, ff, mm, hx, h1, h2, h3, h4⟩
            exact ⟨j + 1, ff, mm, hx, by simpa [List.get?] using h1,
              by simpa [List.get?] using h2, h3, h4⟩
          · rintro ⟨j, ff, mm, hx, h1, h2, h3, h4⟩
            cases j with
            | zero =>
              simp only [List.get?] at h1 h2
              cases h1
              cases h2
              exact absurd hch h4
            | succ n =>
              exact ⟨n, ff, mm, hx, by simpa [List.get?] using h1,
                by simpa [List.get?] using h2, h3, h4⟩
        · simp only [applyLoop, if_neg hf, if_neg hch]
          rw [List.mem_cons, shift]
          constructor
          · rintro (rfl | ⟨j, ff, mm, hx, h1, h2, h3, h4⟩)
            · exact ⟨0, f, m, by omega, rfl, rfl, hft, hch⟩
            · exact ⟨j + 1, ff, mm, hx, by simpa [List.get?] using h1,
                by simpa [List.get?] using h2, h3, h4⟩
          · rintro ⟨j, ff, mm, hx, h1, h2, h3, h4⟩
            cases j with
            | zero =>
              left
              omega
            | succ n =>
              right
              exact ⟨n, ff, mm, hx, by simpa [List.get?] using h1,
                by simpa [List.get?] using h2, h3, h4⟩

theorem applyLoop_terminated :
    ∀ (fl : List FolderStub) (mf : List SubFolderInfo) (i0 x : Nat),
    (x ∈ (applyLoop i0 fl mf).terminated ↔
      ∃ j f m, x = i0 + j ∧ fl.get? j = some f ∧ mf.get? j = some m ∧ m.fetched = true ∧
        f.busy = true ∧
        ¬ symmDiffL f.blackList (createBlackList m f.blackList) = []) := by
  intro fl
  induction fl with
  | nil =>
    intro mf i0 x
    simp only [applyLoop]
    constructor
    · intro h; cases h
    · rintro ⟨j, f, m, _, hfj, _⟩
      simp [List.get?] at hfj
  | cons f fs ih =>
    intro mf i0 x
    cases mf with
    | nil =>
      simp only [applyLoop]
      constructor
      · intro h; cases h
      · rintro ⟨j, ff, m, _, _, hmj, _⟩
        simp [List.get?] at hmj
    | cons m ms =>
      have shift : (x ∈ (applyLoop (i0 + 1) fs ms).terminated ↔
          ∃ j ff mm, x = i0 + (j + 1) ∧ fs.get? j = some ff ∧ ms.get? j = some mm ∧
            mm.fetched = true ∧ ff.busy = true ∧
            ¬ symmDiffL ff.blackList (createBlackList mm ff.blackList) = []) := by
        rw [ih ms (i0 + 1) x]
        constructor
        · rintro ⟨j, ff, mm, hx, h1, h2, h3, h4, h5⟩
          exact ⟨j, ff, mm, by omega, h1, h2, h3, h4, h5⟩
        · rintro ⟨j, ff, mm, hx, h1, h2, h3, h4, h5⟩
          exact ⟨j, ff, mm, by omega, h1, h2, h3, h4, h5⟩
      by_cases hf : m.fetched = false
      · simp only [applyLoop, if_pos hf]
        rw [shift]
        constructor
        · rintro ⟨j, ff, mm, hx, h1, h2, h3, h4, h5⟩
          exact ⟨j + 1, ff, mm, hx, by simpa [List.get?] using h1,
            by simpa [List.get?] using h2, h3, h4, h5⟩
        · rintro ⟨j, ff, mm, hx, h1, h2, h3, h4, h5⟩
          cases j with
          | zero =>
            simp only [List.get?] at h2
            cases h2
            rw [h3] at hf
            exact absurd hf (by decide)
          | succ n =>
            exact ⟨n, ff, mm, hx, by simpa [List.get?] using h1,
              by simpa [List.get?] using h2, h3, h4, h5⟩
      · have hft : m.fetched = true := by
          cases hm : m.fetched
          · exact absurd hm hf
          · rfl
        by_cases hch : symmDiffL f.blackList (createBlackList m f.blackList) = []
        · simp only [applyLoop, if_neg hf, if_pos hch]
          rw [shift]
          constructor
          · rintro ⟨j, ff, mm, hx, h1, h2, h3, h4, h5⟩
            exact ⟨j + 1, ff, mm, hx, by simpa [List.get?] using h1,
              by simpa [List.get?] using h2, h3, h4, h5⟩
          · rintro ⟨j, ff, mm, hx, h1, h2, h3, h4, h5⟩
            cases j with
            | zero =>
              simp only [List.get?] at h1 h2
              cases h1
              cases h2
              exact absurd hch h5
            | succ n =>
              exact ⟨n, ff, mm, hx, by simpa [List.get?] using h1,
                by simpa [List.get?] using h2, h3, h4, h5⟩
        · simp only [applyLoop, if_neg hf, if_neg hch]
          by_cases hb : f.busy = true
          · rw [if_pos hb, List.mem_cons, shift]
            constructor
            · rintro (rfl | ⟨j, ff, mm, hx, h1, h2, h3, h4, h5⟩)
              · exact ⟨0, f, m, by omega, rfl, rfl, hft, hb, hch⟩
              · exact ⟨j + 1, ff, mm, hx, by simpa [List.get?] using h1,
                  by simpa [List.get?] using h2, h3, h4, h5⟩
            · rintro ⟨j, ff, mm, hx, h1, h2, h3, h4, h5⟩
              cases j with
              | zero =>
                left
                omega
              | succ n =>
                right
                exact ⟨n, ff, mm, hx, by simpa [List.get?] using h1,
                  by simpa [List.get?] using h2, h3, h4, h5⟩
          · rw [if_neg hb, shift]
            constructor
            · rintro ⟨j, ff, mm, hx, h1, h2, h3, h4, h5⟩
              exact ⟨j + 1, ff, mm, hx, by simpa [List.get?] using h1,
                by simpa [List.get?] using h2, h3, h4, h5⟩
            · rintro ⟨j, ff, mm, hx, h1, h2, h3, h4, h5⟩
              cases j with
              | zero =>
                simp only [List.get?] at h1 h2
                cases h1
                cases h2
                exact absurd h4 hb
              | succ n =>
                exact ⟨n, ff, mm, hx, by simpa [List.get?] using h1,
                  by simpa [List.get?] using h2, h3, h4, h5⟩

theorem applyLoop_untrusted :
    ∀ (fl : List FolderStub) (mf : List SubFolderInfo) (i0 : Nat) (x : String),
    (x ∈ (applyLoop i0 fl mf).untrusted ↔
      ∃ j f m, fl.get? j = some f ∧ mf.get? j = some m ∧ m.fetched = true ∧
        x ∈ symmDiffL f.blackList (createBlackList m f.blackList)) := by
  intro fl
  induction fl with
  | nil =>
    intro mf i0 x
    simp only [applyLoop]
    constructor
    · intro h; cases h
    · rintro ⟨j, f, m, hfj, _⟩
      simp [List.get?] at hfj
  | cons f fs ih =>
    intro mf i0 x
    cases mf with
    | nil =>
      simp only [applyLoop]
      constructor
      · intro h; cases h
      · rintro ⟨j, ff, m, _, hmj, _⟩
        simp [List.get?] at hmj
    | cons m ms =>
      have shift := ih ms (i0 + 1) x
      by_cases hf : m.fetched = false
      · simp only [applyLoop, if_pos hf]
        rw [shift]
        constructor
        · rintro ⟨j, ff, mm, h1, h2, h3, h4⟩
          exact ⟨j + 1, ff, mm, by simpa [List.get?] using h1,
            by simpa [List.get?] using h2, h3, h4⟩
        · rintro ⟨j, ff, mm, h1, h2, h3, h4⟩
          cases j with
          | zero =>
            simp only [List.get?] at h2
            cases h2
            rw [h3] at hf
            exact absurd hf (by decide)
          | succ n =>
            exact ⟨n, ff, mm, by simpa [List.get?] using h1,
              by simpa [List.get?] using h2, h3, h4⟩
      · have hft : m.fetched = true := by
          cases hm : m.fetched
          · exact absurd hm hf
          · rfl
        by_cases hch : symmDiffL f.blackList (createBlackList m f.blackList) = []
        · simp only [applyLoop, if_neg hf, if_pos hch]
          rw [shift]
          constructor
          · rintro ⟨j, ff, mm, h1, h2, h3, h4⟩
            exact ⟨j + 1, ff, mm, by simpa [List.get?] using h1,
              by simpa [List.get?] using h2, h3, h4⟩
          · rintro ⟨j, ff, mm, h1, h2, h3, h4⟩
            cases j with
            | zero =>
              simp only [List.get?] at h1 h2
              cases h1
              cases h2
              rw [hch] at h4
              cases h4
            | succ n =>
              exact ⟨n, ff, mm, by simpa [List.get?] using h1,
                by simpa [List.get?] using h2, h3, h4⟩
        · simp only [applyLoop, if_neg hf, if_neg hch]
          rw [List.mem_append, shift]
          constructor
          · rintro (hx | ⟨j, ff, mm, h1, h2, h3, h4⟩)
            · exact ⟨0, f, m, rfl, rfl, hft, hx⟩
            · exact ⟨j + 1, ff, mm, by simpa [List.get?] using h1,
                by simpa [List.get?] using h2, h3, h4⟩
          · rintro ⟨j, ff, mm, h1, h2, h3, h4⟩
            cases j with
            | zero =>
              simp only [List.get?] at h1 h2
              cases h1
              cases h2
              exact Or.inl h4
            | succ n =>
              exact Or.inr ⟨n, ff, mm, by simpa [List.get?] using h1,
                by simpa [List.get?] using h2, h3, h4⟩

/-- C5 (amended): the apply operation is gated on the `_dirty` flag — when
no checkbox was toggled since the last reset it is a complete no-op (tree
kept, blacklists untouched, no side effects).  When dirty: only root folders
with `fetched = true` (and materialized in `_folders`) get their blacklist
projected and overwritten, the others keep theirs; a sync re-schedule
happens exactly for folders with a non-empty symmetric difference between
old and new blacklists, a sync termination exactly for those of them that
were busy; the journal receives exactly the paths of the symmetric
differences; afterwards the tree is discarded and the dirty flag cleared. -/
theorem C5_slotApplySelectiveSync (dirty : Bool) (mf : List SubFolderInfo)
    (fl : List FolderStub) :
    (dirty = false → slotApplySelectiveSync dirty mf fl = (false, mf, ⟨fl, [], [], []⟩)) ∧
    (dirty = true →
      ((slotApplySelectiveSync dirty mf fl).1 = false ∧
        (slotApplySelectiveSync dirty mf fl).2.1 = []) ∧
      (∀ j f, fl.get? j = some f →
        ((mf.get? j = none ∨ ∃ m, mf.get? j = some m ∧ m.fetched = false) →
          (slotApplySelectiveSync dirty mf fl).2.2.folders.get? j = some f) ∧
        (∀ m, mf.get? j = some m → m.fetched = true →
          (slotApplySelectiveSync dirty mf fl).2.2.folders.get? j
            = some { f with blackList := createBlackList m f.blackList })) ∧
      (∀ x, x ∈ (slotApplySelectiveSync dirty mf fl).2.2.scheduled ↔
        ∃ j f m, x = j ∧ fl.get? j = some f ∧ mf.get? j = some m ∧ m.fetched = true ∧
          ¬ symmDiffL f.blackList (createBlackList m f.blackList) = []) ∧
      (∀ x, x ∈ (slotApplySelectiveSync dirty mf fl).2.2.terminated ↔
        ∃ j f m, x = j ∧ fl.get? j = some f ∧ mf.get? j = some m ∧ m.fetched = true ∧
          f.busy = true ∧
          ¬ symmDiffL f.blackList (createBlackList m f.blackList) = []) ∧
      (∀ x, x ∈ (slotApplySelectiveSync dirty mf fl).2.2.untrusted ↔
        ∃ j f m, fl.get? j = some f ∧ mf.get? j = some m ∧ m.fetched = true ∧
          x ∈ symmDiffL f.blackList (createBlackList m f.blackList))) := by
  constructor
  · intro hd
    subst hd
    rfl
  · intro hd
    subst hd
    refine ⟨⟨rfl, rfl⟩, ?_, ?_, ?_, ?_⟩
    · intro j f hfj
      constructor
      · intro hm
        show (applyLoop 0 fl mf).folders.get? j = some f
        rw [applyLoop_folders fl mf 0 j, hfj]
        rcases hm with hm | ⟨m, hm, hfe⟩
        · rw [hm]
        · rw [hm]
          simp [hfe]
      · intro m hm hfe
        show (applyLoop 0 fl mf).folders.get? j = _
        rw [applyLoop_folders fl mf 0 j, hfj, hm]
        simp [hfe]
    · intro x
      show x ∈ (applyLoop 0 fl mf).scheduled ↔ _
      rw [applyLoop_scheduled fl mf 0 x]
      constructor
      · rintro ⟨j, f, m, hx, h1, h2, h3, h4⟩
        exact ⟨j, f, m, by omega, h1, h2, h3, h4⟩
      · rintro ⟨j, f, m, hx, h1, h2, h3, h4⟩
        exact ⟨j, f, m, by omega, h1, h2, h3, h4⟩
    · intro x
      show x ∈ (applyLoop 0 fl mf).terminated ↔ _
      rw [applyLoop_terminated fl mf 0 x]
      constructor
      · rintro ⟨j, f, m, hx, h1, h2, h3, h4, h5⟩
        exact ⟨j, f, m, by omega, h1, h2, h3, h4, h5⟩
      · rintro ⟨j, f, m, hx, h1, h2, h3, h4, h5⟩
        exact ⟨j, f, m, by omega, h1, h2, h3, h4, h5⟩
    · intro x
      show x ∈ (applyLoop 0 fl mf).untrusted ↔ _
      exact applyLoop_untrusted fl mf 0 x

/-- C5 counterexample: a fetched root whose projection (`["/"]`, the root is
Unchecked) differs from its stored blacklist (`[]`), with `_dirty` false —
for example fetched but never toggled this session.  The apply call leaves
the blacklist and the whole tree untouched, while the claim asserts the
projection is applied and the tree discarded. -/
theorem C5_counterexample :
    (slotApplySelectiveSync false
      [SubFolderInfo.mk "/" "r" [0] CheckState.Unchecked true false 0 SubList.nil]
      [⟨[], false⟩]).2.1
      = [SubFolderInfo.mk "/" "r" [0] CheckState.Unchecked true false 0 SubList.nil] ∧
    (slotApplySelectiveSync false
      [SubFolderInfo.mk "/" "r" [0] CheckState.Unchecked true false 0 SubList.nil]
      [⟨[], false⟩]).2.2.folders = [⟨[], false⟩] ∧
    ¬ createBlackList
        (SubFolderInfo.mk "/" "r" [0] CheckState.Unchecked true false 0 SubList.nil) [] = [] := by
  decide

/-- C5 witness: a dirty apply overwrites the blacklist of the single fetched
root with its projection. -/
theorem C5_slotApplySelectiveSync_witness :
    (slotApplySelectiveSync true
      [SubFolderInfo.mk "/" "r" [0] CheckState.Unchecked true false 0 SubList.nil]
      [⟨[], false⟩]).2.2.folders.get? 0 = some ⟨["/"], false⟩ := by
  have h := (((C5_slotApplySelectiveSync true
    [SubFolderInfo.mk "/" "r" [0] CheckState.Unchecked true false 0 SubList.nil]
    [⟨[], false⟩]).2 rfl).2.1 0 ⟨[], false⟩ rfl).2
    (SubFolderInfo.mk "/" "r" [0] CheckState.Unchecked true false 0 SubList.nil) rfl rfl
  rw [h]
  decide

end OCC
